import Mathlib

/-!
# libds: the dynamic array of `src/src/darray.c` and the linked list of `src/src/list.c`

A shallow embedding of `struct dyn_array` and of the functions that manipulate it; the
embedding of the linked list follows the one of the array, with its own introduction.

* Addresses and `size_t` values are natural numbers. Every `size_t` expression the
  source computes is reduced modulo `2 ^ w` (`wrap w`), where `w` is the width of
  `size_t`; pointer arithmetic is left unreduced.
* Memory is flat: `State.mem a` is the byte stored at address `a`. Bytes outside the
  buffer are ordinary memory, so an access that leaves the buffer is visible in the
  model instead of being hidden.
* The allocator entries are collaborators. Each call that may invoke one takes an
  `alloc_outcome`, the answer the entry gives if it is called.
* `errno` is a component of the state.
-/

namespace Libds

set_option maxRecDepth 100000

/-- The null pointer. -/
def NULL : Nat := 0

/-- The `errno` value for an invalid argument. -/
def EINVAL : Nat := 22

/-- The `errno` value for a result out of range. -/
def ERANGE : Nat := 34

/-- The macro `DARRAY_INITIAL_SIZE`. -/
def DARRAY_INITIAL_SIZE : Nat := 5

/-- Reduction of a natural number to a `size_t` of `w` bits. -/
def wrap (w x : Nat) : Nat := x % 2 ^ w

/-- The fields of `struct dyn_array`. The two retained allocator entries are not
fields of the model: what they answer is supplied to each call as an `alloc_outcome`. -/
structure dyn_array where
  data : Nat
  tp_size : Nat
  alloc_size : Nat
  elem_amount : Nat

/-- The control block, the flat byte memory and `errno`. -/
structure State where
  da : dyn_array
  mem : Nat → Nat
  errno : Nat

/-- The returned pointer and the state after a call. -/
structure Result where
  ret : Nat
  st : State

/-- The answer of an allocator entry: the pointer it returns (`NULL` on failure), the
value it stores in `errno` if it stores one, and the bytes found in the part of a
fresh region that holds no preserved data. -/
structure alloc_outcome where
  ptr : Nat
  err : Option Nat
  fresh : Nat → Nat

/-- The libc `memcpy` from a source region that does not overlap memory under
consideration: `src k` is byte `k` of the source. -/
def memcpy (mem : Nat → Nat) (dest : Nat) (src : Nat → Nat) (n : Nat) : Nat → Nat :=
  fun a => if dest ≤ a ∧ a < dest + n then src (a - dest) else mem a

/-- The libc `memmove`: the `n` bytes at `src` are read first and then stored at `dest`. -/
def memmove (mem : Nat → Nat) (dest src n : Nat) : Nat → Nat :=
  fun a => if dest ≤ a ∧ a < dest + n then mem (src + (a - dest)) else mem a

/-- The libc `memset`. -/
def memset (mem : Nat → Nat) (dest c n : Nat) : Nat → Nat :=
  fun a => if dest ≤ a ∧ a < dest + n then c else mem a

/-- Memory after a successful `realloc(old, n)` answered by `o`, where the old region
holds `old_bytes` bytes: the first `min old_bytes n` bytes are preserved at the new
address, the others are whatever the allocator left there. -/
def realloc_mem (mem : Nat → Nat) (old old_bytes : Nat) (o : alloc_outcome) (n : Nat) :
    Nat → Nat :=
  fun a =>
    if o.ptr ≤ a ∧ a < o.ptr + n then
      if a - o.ptr < old_bytes then mem (old + (a - o.ptr)) else o.fresh (a - o.ptr)
    else mem a

/-- The outcome of a construction: the control block if one was made, `errno`, and the
number of calls made to the allocate entry. -/
structure new_result where
  da : Option dyn_array
  errno : Nat
  malloc_calls : Nat

/-- The function `darray_new_with_allocator`; `m` is the answer of the allocate entry
(supplied or default) and `errno` the value of `errno` before the call. -/
def darray_new_with_allocator (type_size : Nat) (m : alloc_outcome) (errno : Nat) :
    new_result :=
  if type_size = 0 then
    { da := none, errno := EINVAL, malloc_calls := 0 }
  else if m.ptr = NULL then
    { da := none, errno := m.err.getD errno, malloc_calls := 1 }
  else
    { da := some { data := NULL, tp_size := type_size, alloc_size := 0, elem_amount := 0 },
      errno := m.err.getD errno, malloc_calls := 1 }

/-- The function `darray_reserve`; `o` answers the `DARRAY_REALLOC` call. The region at
`data` holds the bytes requested by the reservation that installed it. -/
def darray_reserve (w : Nat) (o : alloc_outcome) (st : State) (size : Nat) : Result :=
  if st.da.alloc_size ≥ size then { ret := st.da.data, st := st }
  else if st.da.tp_size = 0 ∨ size = 0 then
    { ret := NULL, st := { st with errno := EINVAL } }
  else if o.ptr = NULL then
    { ret := NULL, st := { st with errno := o.err.getD 0 } }
  else
    { ret := o.ptr,
      st :=
        { da := { st.da with data := o.ptr, alloc_size := size },
          mem := realloc_mem st.mem st.da.data (wrap w (st.da.alloc_size * st.da.tp_size)) o
            (wrap w (size * st.da.tp_size)),
          errno := o.err.getD 0 } }

/-- The function `darray_resize`. -/
def darray_resize (w : Nat) (o : alloc_outcome) (st : State) (size : Nat) : Result :=
  let old_size := st.da.elem_amount
  let res := darray_reserve w o st size
  if res.ret = NULL then { ret := NULL, st := res.st }
  else
    let mem1 :=
      if size > old_size then
        memset res.st.mem (res.st.da.data + wrap w (old_size * res.st.da.tp_size)) 0
          (wrap w ((size - old_size) * res.st.da.tp_size))
      else res.st.mem
    { ret := res.ret,
      st := { res.st with da := { res.st.da with elem_amount := size }, mem := mem1 } }

/-- The function `darray_clear`. -/
def darray_clear (w : Nat) (st : State) : State :=
  let mem1 :=
    if st.da.data ≠ NULL then
      memset st.mem st.da.data 0 (wrap w (st.da.elem_amount * st.da.tp_size))
    else st.mem
  { st with da := { st.da with elem_amount := 0 }, mem := mem1 }

/-- The function `darray_at`. -/
def darray_at (w : Nat) (st : State) (index : Nat) : Result :=
  if index ≥ st.da.elem_amount then { ret := NULL, st := { st with errno := ERANGE } }
  else { ret := st.da.data + wrap w (index * st.da.tp_size), st := st }

/-- The target capacity computed by `darray_insert` when the array is full
(the local `size` of lines 152-154). -/
def darray_grow_size (w : Nat) (da : dyn_array) : Nat :=
  if da.alloc_size = 0 then DARRAY_INITIAL_SIZE
  else wrap w (da.alloc_size + (da.alloc_size >>> 1))

/-- Lines 160-186 of `darray_insert`: storing the element once room has been made. -/
def darray_insert_store (w : Nat) (st : State) (data : Nat → Nat) (pos : Nat) : Result :=
  if pos = st.da.elem_amount then
    let st1 : State := { st with da := { st.da with elem_amount := wrap w (st.da.elem_amount + 1) } }
    let at1 := darray_at w st1 (wrap w (st1.da.elem_amount + 2 ^ w - 1))
    { ret := at1.ret,
      st := { at1.st with mem := memcpy at1.st.mem at1.ret data at1.st.da.tp_size } }
  else
    let st1 : State :=
      if pos < st.da.elem_amount then
        { st with
          mem := memmove st.mem (st.da.data + wrap w ((pos + 1) * st.da.tp_size))
            (st.da.data + wrap w (pos * st.da.tp_size))
            (wrap w ((st.da.elem_amount - pos) * st.da.tp_size)) }
      else st
    let at1 := darray_at w st1 pos
    { ret := at1.ret,
      st :=
        { at1.st with
          da := { at1.st.da with elem_amount := wrap w (at1.st.da.elem_amount + 1) },
          mem := memcpy at1.st.mem at1.ret data at1.st.da.tp_size } }

/-- The function `darray_insert`; `data k` is byte `k` behind the `data` pointer and `o`
answers the reallocation if the array has to grow. -/
def darray_insert (w : Nat) (o : alloc_outcome) (st : State) (data : Nat → Nat) (pos : Nat) :
    Result :=
  if pos > st.da.elem_amount then { ret := NULL, st := { st with errno := ERANGE } }
  else if st.da.elem_amount ≥ st.da.alloc_size then
    let res := darray_reserve w o st (darray_grow_size w st.da)
    if res.ret = NULL then { ret := NULL, st := res.st }
    else darray_insert_store w res.st data pos
  else darray_insert_store w st data pos

/-- The function `darray_erase`. -/
def darray_erase (w : Nat) (st : State) (pos : Nat) : Result :=
  if pos > st.da.elem_amount ∨ st.da.elem_amount = 0 then
    { ret := NULL, st := { st with errno := ERANGE } }
  else if pos = st.da.elem_amount - 1 then
    { ret := st.da.data,
      st := { st with da := { st.da with elem_amount := st.da.elem_amount - 1 } } }
  else if pos < st.da.elem_amount - 1 then
    { ret := st.da.data,
      st :=
        { st with
          da := { st.da with elem_amount := st.da.elem_amount - 1 },
          mem := memmove st.mem (st.da.data + wrap w (pos * st.da.tp_size))
            (st.da.data + wrap w ((pos + 1) * st.da.tp_size))
            (wrap w ((st.da.elem_amount - pos) * st.da.tp_size)) } }
  else { ret := st.da.data, st := st }

/-- The function `darray_size`. -/
def darray_size (st : State) : Nat := st.da.elem_amount

/-- The function `darray_capacity`. -/
def darray_capacity (st : State) : Nat := st.da.alloc_size

/-- The function `darray_type_size`. -/
def darray_type_size (st : State) : Nat := st.da.tp_size

/-- The function `darray_data`. -/
def darray_data (st : State) : Nat := st.da.data

/-- The function `darray_push_back`. -/
def darray_push_back (w : Nat) (o : alloc_outcome) (st : State) (data : Nat → Nat) : Result :=
  darray_insert w o st data (darray_size st)

/-- The function `darray_pop_back`; the position is `size - 1` computed in `size_t`. -/
def darray_pop_back (w : Nat) (st : State) : Result :=
  darray_erase w st (wrap w (darray_size st + 2 ^ w - 1))

/-- The function `darray_push_front`. -/
def darray_push_front (w : Nat) (o : alloc_outcome) (st : State) (data : Nat → Nat) : Result :=
  darray_insert w o st data 0

/-- The function `darray_pop_front`. -/
def darray_pop_front (w : Nat) (st : State) : Result :=
  darray_erase w st 0

/-- A call of one of the mutating operations, with the answer of the allocator where
the operation may reallocate. -/
inductive Op where
  | reserve (n : Nat) (o : alloc_outcome)
  | resize (n : Nat) (o : alloc_outcome)
  | clear
  | insert (v : Nat → Nat) (pos : Nat) (o : alloc_outcome)
  | erase (pos : Nat)
  | push_back (v : Nat → Nat) (o : alloc_outcome)
  | pop_back
  | push_front (v : Nat → Nat) (o : alloc_outcome)
  | pop_front

/-- The state after one call. -/
def step (w : Nat) (st : State) : Op → State
  | Op.reserve n o => (darray_reserve w o st n).st
  | Op.resize n o => (darray_resize w o st n).st
  | Op.clear => darray_clear w st
  | Op.insert v pos o => (darray_insert w o st v pos).st
  | Op.erase pos => (darray_erase w st pos).st
  | Op.push_back v o => (darray_push_back w o st v).st
  | Op.pop_back => (darray_pop_back w st).st
  | Op.push_front v o => (darray_push_front w o st v).st
  | Op.pop_front => (darray_pop_front w st).st

/-- The state after a finite sequence of calls. -/
def run (w : Nat) (st : State) (ops : List Op) : State :=
  ops.foldl (step w) st

/-- The state right after a successful construction with element size `type_size`:
the control block made by `darray_new_with_allocator`, over any memory and `errno`. -/
def fresh_state (type_size : Nat) (mem : Nat → Nat) (errno : Nat) : State :=
  { da := { data := NULL, tp_size := type_size, alloc_size := 0, elem_amount := 0 },
    mem := mem, errno := errno }

/-- An allocator answer that succeeds at address `p` and leaves zero bytes. -/
def alloc_ok (p : Nat) : alloc_outcome := { ptr := p, err := none, fresh := fun _ => 0 }

/-- The bytes of a 4-byte little-endian integer `x`, as a source region. -/
def int_bytes (x : Nat) : Nat → Nat := fun k => (x / 256 ^ k) % 256

/-- The memory left by `darray_insert_store` at position `pos` of an array of `e` elements. -/
def store_mem (w : Nat) (st : State) (data : Nat → Nat) (pos : Nat) : Nat → Nat :=
  memcpy
    (if pos < st.da.elem_amount then
      memmove st.mem (st.da.data + wrap w ((pos + 1) * st.da.tp_size))
        (st.da.data + wrap w (pos * st.da.tp_size))
        (wrap w ((st.da.elem_amount - pos) * st.da.tp_size))
    else st.mem)
    (st.da.data + wrap w (pos * st.da.tp_size)) data st.da.tp_size

/-- The state in which `darray_insert` stores the element: the state after the growth
step when the array is full, the given state otherwise. -/
def insert_base (w : Nat) (o : alloc_outcome) (st : State) : State :=
  if st.da.elem_amount ≥ st.da.alloc_size then (darray_reserve w o st (darray_grow_size w st.da)).st
  else st

/-- The array of the edge-case test after its first insertion: element size 4, the
value 42 inserted at position 0 of a fresh array. -/
def one_elem_state : State :=
  (darray_insert 64 (alloc_ok 4096) (fresh_state 4 (fun _ => 0) 0) (int_bytes 42) 0).st

/-- A full array of capacity 1: `reserve(1)` on a fresh array of element size 4, then one
`push_back`. -/
def full_one_state : State :=
  run 64 (fresh_state 4 (fun _ => 0) 0)
    [Op.reserve 1 (alloc_ok 4096), Op.push_back (int_bytes 42) (alloc_ok 8192)]

/-- The state after `push_back(vals 0)`, ..., `push_back(vals (n - 1))`, the `k`-th call
answered by `outs k`. -/
def push_back_n (w : Nat) (outs : Nat → alloc_outcome) (vals : Nat → Nat → Nat) (st : State) :
    Nat → State
  | 0 => st
  | n + 1 => (darray_push_back w (outs n) (push_back_n w outs vals st n) (vals n)).st

/-- What holds after `n` successful `push_back` calls on a fresh array of stride `s`:
the fields, the bounds on the capacity, and the stored bytes. -/
def push_inv (w s : Nat) (vals : Nat → Nat → Nat) (n : Nat) (st : State) : Prop :=
  st.da.tp_size = s ∧ st.da.elem_amount = n ∧ n ≤ st.da.alloc_size ∧
  (st.da.alloc_size = 0 ∨ 5 ≤ st.da.alloc_size) ∧ st.da.alloc_size ≤ n + n / 2 + 5 ∧
  (st.da.alloc_size ≠ 0 → st.da.data ≠ NULL) ∧
  ∀ k b, k < n → b < s → st.mem ((darray_at w st k).ret + b) = vals k b

/-- The buffer is absent exactly when the capacity is zero. -/
def buffer_inv (st : State) : Prop := st.da.alloc_size = 0 ↔ st.da.data = NULL

/-- The array of 4-byte integers `[1, 2, 3]`, built by three `push_back` calls. -/
def three_elem_state : State :=
  push_back_n 64 (fun k => alloc_ok (4096 * (k + 1))) (fun k => int_bytes (k + 1))
    (fresh_state 4 (fun _ => 0) 0) 3

/-- The array `[1, 2, 3, 4, 5]` of the resizing test, built by five `push_back` calls. -/
def five_elem_state : State :=
  push_back_n 64 (fun k => alloc_ok (4096 * (k + 1))) (fun k => int_bytes (k + 1))
    (fresh_state 4 (fun _ => 0) 0) 5

/-- The array of the resizing test after `resize(3)`. -/
def shrunk_state : State := (darray_resize 64 (alloc_ok 40960) five_elem_state 3).st

/-- The array of the resizing test after `resize(3)` and `resize(10)`; the reallocation
leaves the byte 255 in every byte it does not preserve. -/
def regrown_state : State :=
  (darray_resize 64 { ptr := 40960, err := none, fresh := fun _ => 255 } shrunk_state 10).st

/-- A non-empty array has a non-zero capacity. -/
def size_inv (st : State) : Prop := st.da.elem_amount ≠ 0 → st.da.alloc_size ≠ 0

/-! ## The linked list of `src/src/list.c`

Nodes live in a flat heap indexed by address; `live` records which addresses hold an
allocated node. The walks to the head and to the tail are `while` loops: they take a
bound on the number of times the loop condition is evaluated and give `none` when the
bound is reached before the loop ends. -/

/-- The fields of `struct linked_list`. The allocator entries are kept as opaque
identifiers, `NULL` standing for the default. -/
structure linked_list where
  prev : Nat
  next : Nat
  data : Nat
  malloc_fn : Nat
  free_fn : Nat

/-- The heap of nodes, the set of allocated addresses and `errno`. -/
structure ListState where
  heap : Nat → linked_list
  live : Nat → Bool
  errno : Nat

/-- The returned node pointer and the state after a call. -/
structure ListResult where
  ret : Nat
  st : ListState

/-- The heap after the node at address `p` has been overwritten. -/
def heap_set (heap : Nat → linked_list) (p : Nat) (n : linked_list) : Nat → linked_list :=
  fun a => if a = p then n else heap a

/-- The macro `LIST_TO_HEAD`: the node the walk over `prev` ends at. -/
def LIST_TO_HEAD (heap : Nat → linked_list) : Nat → Nat → Option Nat
  | 0, _ => none
  | fuel + 1, head =>
    if (heap head).prev ≠ NULL then LIST_TO_HEAD heap fuel (heap head).prev else some head

/-- The macro `LIST_TO_TAIL`: the node the walk over `next` ends at. -/
def LIST_TO_TAIL (heap : Nat → linked_list) : Nat → Nat → Option Nat
  | 0, _ => none
  | fuel + 1, tail =>
    if (heap tail).next ≠ NULL then LIST_TO_TAIL heap fuel (heap tail).next else some tail

/-- The function `list_new_with_allocator`; `m` is the answer of the allocate entry. -/
def list_new_with_allocator (m : alloc_outcome) (malloc_fn free_fn : Nat) (st : ListState) :
    ListResult :=
  if m.ptr = NULL then { ret := NULL, st := { st with errno := m.err.getD st.errno } }
  else
    { ret := m.ptr,
      st :=
        { heap := heap_set st.heap m.ptr
            { prev := NULL, next := NULL, data := NULL, malloc_fn := malloc_fn,
              free_fn := free_fn },
          live := fun a => if a = m.ptr then true else st.live a,
          errno := m.err.getD st.errno } }

/-- The function `list_new`. -/
def list_new (m : alloc_outcome) (st : ListState) : ListResult :=
  list_new_with_allocator m NULL NULL st

/-- The function `list_free_node`. -/
def list_free_node (fuel : Nat) (st : ListState) (list : Nat) : Option ListState :=
  match LIST_TO_HEAD st.heap fuel list with
  | none => none
  | some _ =>
    let heap1 :=
      if (st.heap list).prev ≠ NULL then
        heap_set st.heap (st.heap list).prev
          { (st.heap (st.heap list).prev) with next := (st.heap list).next }
      else st.heap
    some { st with heap := heap1, live := fun a => if a = list then false else st.live a }

/-- The loop of `list_free`: every node from `list` on is released. -/
def list_free_loop (st : ListState) : Nat → Nat → Option ListState
  | 0, _ => none
  | fuel + 1, list =>
    if list ≠ NULL then
      list_free_loop { st with live := fun a => if a = list then false else st.live a } fuel
        (st.heap list).next
    else some st

/-- The function `list_free`. -/
def list_free (fuel : Nat) (st : ListState) (list : Nat) : Option ListState :=
  match LIST_TO_HEAD st.heap fuel list with
  | none => none
  | some head => list_free_loop st fuel head

/-- The function `list_append`; `m` answers the allocation of the new node. -/
def list_append (fuel : Nat) (m : alloc_outcome) (st : ListState) (list data : Nat) :
    Option ListResult :=
  let r := list_new_with_allocator m (st.heap list).malloc_fn (st.heap list).free_fn st
  if r.ret = NULL then some { ret := NULL, st := r.st }
  else
    let heap1 := heap_set r.st.heap r.ret { (r.st.heap r.ret) with data := data, prev := list }
    match LIST_TO_TAIL heap1 fuel list with
    | none => none
    | some tail =>
      some
        { ret := r.ret,
          st := { r.st with heap := heap_set heap1 tail { (heap1 tail) with next := r.ret } } }

/-- The function `list_set_data`. -/
def list_set_data (st : ListState) (list data : Nat) : ListResult :=
  { ret := list,
    st := { st with heap := heap_set st.heap list { (st.heap list) with data := data } } }

/-- The function `list_prepend`; `m` answers the allocation of the new node. -/
def list_prepend (fuel : Nat) (m : alloc_outcome) (st : ListState) (list data : Nat) :
    Option ListResult :=
  let r := list_new_with_allocator m (st.heap list).malloc_fn (st.heap list).free_fn st
  if r.ret = NULL then some { ret := NULL, st := r.st }
  else
    let heap1 := heap_set r.st.heap r.ret { (r.st.heap r.ret) with data := data, next := list }
    match LIST_TO_HEAD heap1 fuel list with
    | none => none
    | some head =>
      some
        { ret := r.ret,
          st := { r.st with heap := heap_set heap1 head { (heap1 head) with prev := r.ret } } }

/-- The function `list_data`. -/
def list_data (st : ListState) (list : Nat) : Nat := (st.heap list).data

/-- The function `list_next`. -/
def list_next (st : ListState) (list : Nat) : Nat := (st.heap list).next

/-- The function `list_prev`. -/
def list_prev (st : ListState) (list : Nat) : Nat := (st.heap list).prev

/-- The loop of `list_at` for a negative index: `n` iterations are left; `none` is the
jump to `err`. -/
def list_at_back (heap : Nat → linked_list) : Nat → Nat → Option Nat
  | 0, current => some current
  | n + 1, current =>
    if (heap current).prev = NULL then none else list_at_back heap n (heap current).prev

/-- The loop of `list_at` for a non-negative index: `n` iterations are left; `none` is
the jump to `err`. -/
def list_at_fwd (heap : Nat → linked_list) : Nat → Nat → Option Nat
  | 0, current => some current
  | n + 1, current =>
    if (heap current).next = NULL then none else list_at_fwd heap n (heap current).next

/-- The function `list_at`; the loop for a negative `index` runs `-index` times, the
other one `index` times. -/
def list_at (st : ListState) (list : Nat) (index : Int) : ListResult :=
  match (if index < 0 then list_at_back st.heap index.natAbs list
    else list_at_fwd st.heap index.toNat list) with
  | some current => { ret := current, st := st }
  | none => { ret := NULL, st := { st with errno := ERANGE } }

/-- A state with no allocated node. -/
def list_init : ListState :=
  { heap := fun _ =>
      { prev := NULL, next := NULL, data := NULL, malloc_fn := NULL, free_fn := NULL },
    live := fun _ => false, errno := 0 }

/-- The state a call leaves, or the given one when the call ran out of its bound. -/
def state_of (r : Option ListResult) (st : ListState) : ListState :=
  match r with
  | some x => x.st
  | none => st

/-- One node at address 100, made by `list_new`. -/
def single_node : ListState := (list_new (alloc_ok 100) list_init).st

/-- The chain of node 100 followed by node 200: `list_append` on the single node. -/
def two_node_chain : ListState :=
  state_of (list_append 8 (alloc_ok 200) single_node 100 11) single_node

/-- The chain 100, 200, 300 built by two appends, each on the tail. -/
def three_node_chain : ListState :=
  state_of (list_append 8 (alloc_ok 300) two_node_chain 200 12) two_node_chain

/-- The chain left by `list_new`, `list_append(L, 11)` and a second `list_append(L, 12)`
on the same handle `L` (address 100), which is then the head and not the tail. -/
def forked_chain : ListState :=
  state_of (list_append 8 (alloc_ok 300) two_node_chain 100 12) two_node_chain

/-- The local `dest` of the interior case of `darray_erase` (line 209). -/
def darray_erase_dest (w : Nat) (st : State) (pos : Nat) : Nat :=
  st.da.data + wrap w (pos * st.da.tp_size)

/-- The local `src` of the interior case of `darray_erase` (line 210): the first byte
the move reads. -/
def darray_erase_src (w : Nat) (st : State) (pos : Nat) : Nat :=
  st.da.data + wrap w ((pos + 1) * st.da.tp_size)

/-- The local `bytes_to_move` of the interior case of `darray_erase` (line 207): the
number of bytes the move reads and writes. -/
def darray_erase_bytes_to_move (w : Nat) (st : State) (pos : Nat) : Nat :=
  wrap w ((st.da.elem_amount - pos) * st.da.tp_size)

/-- The full array `[1, 2, 3, 4, 5]` (size 5, capacity 5, buffer at the addresses 4096 to
4115) with the byte 170 stored at 4116, right after the buffer. -/
def full_five_marked : State :=
  { five_elem_state with mem := fun a => if a = 4116 then 170 else five_elem_state.mem a }

/-- The operations other than `reserve` and `resize`. -/
def Op.no_reserve : Op → Bool
  | Op.reserve _ _ => false
  | Op.resize _ _ => false
  | _ => true

/-- The growth target `C + C / 2` of the capacity `C` is representable in `size_t`. -/
def grow_ok (w : Nat) (st : State) : Prop :=
  st.da.alloc_size + st.da.alloc_size / 2 < 2 ^ w

/-- A sequence of calls that uses neither `reserve` nor `resize` and before each of which
the growth target of the capacity is representable in `size_t`. -/
def run_ok (w : Nat) : State → List Op → Bool
  | _, [] => true
  | st, op :: rest =>
    op.no_reserve && decide (st.da.alloc_size + st.da.alloc_size / 2 < 2 ^ w) &&
      run_ok w (step w st op) rest

/-- The capacity is 0 or at least `DARRAY_INITIAL_SIZE`, and the size does not exceed it. -/
def cap_inv (st : State) : Prop :=
  (st.da.alloc_size = 0 ∨ 5 ≤ st.da.alloc_size) ∧ st.da.elem_amount ≤ st.da.alloc_size

/-- The node a walk over the pointer `f` ends at: the common shape of `LIST_TO_HEAD`
and `LIST_TO_TAIL`. -/
def walk_end (f : Nat → Nat) : Nat → Nat → Option Nat
  | 0, _ => none
  | fuel + 1, p => if f p ≠ NULL then walk_end f fuel (f p) else some p

/-- The pointer `f` leads from allocated nodes to allocated nodes of smaller rank `d`:
following it never leaves the allocated nodes and never comes back. -/
def ranked (f : Nat → Nat) (live : Nat → Bool) (d : Nat → Nat) : Prop :=
  ∀ p, live p = true → f p ≠ NULL → live (f p) = true ∧ d (f p) < d p

/-- The chains of a state are acyclic in both directions and closed under both
pointers, and the null address is not an allocated node. -/
def chain_inv (st : ListState) : Prop :=
  st.live NULL = false ∧
  (∃ d, ranked (fun p => (st.heap p).next) st.live d) ∧
  (∃ e, ranked (fun p => (st.heap p).prev) st.live e)

/-- The heap of `list_append` once the new node is initialised and not yet linked. -/
def append_heap (st : ListState) (m : alloc_outcome) (list data : Nat) : Nat → linked_list :=
  heap_set st.heap m.ptr
    { prev := list, next := NULL, data := data, malloc_fn := (st.heap list).malloc_fn,
      free_fn := (st.heap list).free_fn }

/-- The heap of `list_prepend` once the new node is initialised and not yet linked. -/
def prepend_heap (st : ListState) (m : alloc_outcome) (list data : Nat) : Nat → linked_list :=
  heap_set st.heap m.ptr
    { prev := NULL, next := list, data := data, malloc_fn := (st.heap list).malloc_fn,
      free_fn := (st.heap list).free_fn }

/-- The states built from a first node by `list_set_data`, `list_append` and
`list_prepend` on allocated nodes, with an allocator that answers null or an address
that is not allocated. -/
inductive ListReach : ListState → Prop
  | new (st0 : ListState) (m : alloc_outcome) (malloc_fn free_fn : Nat) :
      (∀ a, st0.live a = false) → m.ptr ≠ NULL →
      ListReach (list_new_with_allocator m malloc_fn free_fn st0).st
  | set_data (st : ListState) (p data : Nat) :
      ListReach st → st.live p = true → ListReach (list_set_data st p data).st
  | append (st : ListState) (fuel : Nat) (m : alloc_outcome) (p data : Nat) (r : ListResult) :
      ListReach st → st.live p = true → (m.ptr ≠ NULL → st.live m.ptr = false) →
      list_append fuel m st p data = some r → ListReach r.st
  | prepend (st : ListState) (fuel : Nat) (m : alloc_outcome) (p data : Nat) (r : ListResult) :
      ListReach st → st.live p = true → (m.ptr ≠ NULL → st.live m.ptr = false) →
      list_prepend fuel m st p data = some r → ListReach r.st

/-! ## Arithmetic and case-analysis lemmas -/

/-- Slot `i` of an array of `n` slots of `s` bytes ends inside the array. -/
theorem slot_le {i n : Nat} (s : Nat) (h : i < n) : i * s + s ≤ n * s := by
  have h1 : (i + 1) * s ≤ n * s := Nat.mul_le_mul_right s h
  rwa [Nat.succ_mul] at h1

/-- A value below `2 ^ w` is its own reduction. -/
theorem wrap_of_lt {w x : Nat} (h : x < 2 ^ w) : wrap w x = x := by
  unfold wrap; exact Nat.mod_eq_of_lt h

/-- In `size_t`, `(e + 1) - 1` is `e` when `e + 1` does not wrap. -/
theorem wrap_pred_succ {w e : Nat} (h : e + 1 < 2 ^ w) :
    wrap w (wrap w (e + 1) + 2 ^ w - 1) = e := by
  rw [wrap_of_lt h]
  have h1 : e + 1 + 2 ^ w - 1 = e + 2 ^ w := by omega
  rw [h1]
  unfold wrap
  rw [Nat.add_mod_right]
  exact Nat.mod_eq_of_lt (by omega)

/-- A count is bounded by the byte size it occupies. -/
theorem lt_of_mul_lt {a s N : Nat} (hs : s ≠ 0) (h : a * s < N) : a < N := by
  have h1 : a * 1 ≤ a * s := Nat.mul_le_mul_left a (by omega)
  omega

/-- The pointer `darray_at` returns for an index in range whose offset does not wrap. -/
theorem darray_at_ret_of_lt (w : Nat) (st : State) (i : Nat) (h : i < st.da.elem_amount)
    (hf : i * st.da.tp_size < 2 ^ w) :
    (darray_at w st i).ret = st.da.data + i * st.da.tp_size := by
  have h3 : ¬ i ≥ st.da.elem_amount := by omega
  simp only [darray_at, h3, if_false, wrap_of_lt hf]

/-- Closed form of the store step of `darray_insert` for a position in range. -/
theorem darray_insert_store_eq (w : Nat) (st : State) (data : Nat → Nat) (pos : Nat)
    (hpos : pos ≤ st.da.elem_amount) (he : st.da.elem_amount + 1 < 2 ^ w) :
    darray_insert_store w st data pos =
      { ret := st.da.data + wrap w (pos * st.da.tp_size),
        st :=
          { da := { st.da with elem_amount := st.da.elem_amount + 1 },
            mem := store_mem w st data pos,
            errno := st.errno } } := by
  unfold darray_insert_store store_mem
  by_cases hp : pos = st.da.elem_amount
  · subst hp
    have hge : ¬ st.da.elem_amount ≥ st.da.elem_amount + 1 := by omega
    rw [if_pos rfl]
    dsimp only
    rw [wrap_pred_succ he, wrap_of_lt he]
    simp only [darray_at, hge, if_false, lt_irrefl]
  · have hlt : pos < st.da.elem_amount := by omega
    have hge : ¬ pos ≥ st.da.elem_amount := by omega
    simp only [hp, if_false, hlt, if_true, darray_at, hge, wrap_of_lt he]

/-- The store step of `darray_insert` keeps capacity, buffer and element size. -/
theorem darray_insert_store_da (w : Nat) (st : State) (v : Nat → Nat) (pos : Nat) :
    (darray_insert_store w st v pos).st.da.alloc_size = st.da.alloc_size ∧
    (darray_insert_store w st v pos).st.da.data = st.da.data ∧
    (darray_insert_store w st v pos).st.da.tp_size = st.da.tp_size := by
  unfold darray_insert_store
  split
  · dsimp only
    unfold darray_at
    split <;> exact ⟨rfl, rfl, rfl⟩
  · dsimp only
    unfold darray_at
    split
    · split <;> exact ⟨rfl, rfl, rfl⟩
    · split <;> exact ⟨rfl, rfl, rfl⟩

/-- The store step of `darray_insert` returns a non-null pointer when the buffer is present. -/
theorem darray_insert_store_ret (w : Nat) (st : State) (v : Nat → Nat) (pos : Nat)
    (hpos : pos ≤ st.da.elem_amount) (he : st.da.elem_amount + 1 < 2 ^ w)
    (hd : st.da.data ≠ NULL) : (darray_insert_store w st v pos).ret ≠ NULL := by
  rw [darray_insert_store_eq w st v pos hpos he]
  simp only [NULL] at *
  omega

/-- The function `darray_reserve` keeps the size and the element size. -/
theorem darray_reserve_elem_amount (w : Nat) (o : alloc_outcome) (st : State) (n : Nat) :
    (darray_reserve w o st n).st.da.elem_amount = st.da.elem_amount ∧
    (darray_reserve w o st n).st.da.tp_size = st.da.tp_size := by
  unfold darray_reserve
  split
  · exact ⟨rfl, rfl⟩
  · split
    · exact ⟨rfl, rfl⟩
    · split <;> exact ⟨rfl, rfl⟩

/-- The three ways `darray_reserve` ends: nothing to do, failure, reallocation. -/
theorem darray_reserve_cases (w : Nat) (o : alloc_outcome) (st : State) (n : Nat) :
    (n ≤ st.da.alloc_size ∧ darray_reserve w o st n = { ret := st.da.data, st := st }) ∨
    (st.da.alloc_size < n ∧ (st.da.tp_size = 0 ∨ o.ptr = NULL) ∧
      (darray_reserve w o st n).ret = NULL ∧
      (darray_reserve w o st n).st.da = st.da ∧ (darray_reserve w o st n).st.mem = st.mem) ∨
    (st.da.alloc_size < n ∧ st.da.tp_size ≠ 0 ∧ o.ptr ≠ NULL ∧
      darray_reserve w o st n =
        { ret := o.ptr,
          st :=
            { da := { st.da with data := o.ptr, alloc_size := n },
              mem := realloc_mem st.mem st.da.data (wrap w (st.da.alloc_size * st.da.tp_size)) o
                (wrap w (n * st.da.tp_size)),
              errno := o.err.getD 0 } }) := by
  unfold darray_reserve
  by_cases h1 : st.da.alloc_size ≥ n
  · left; simp [h1]
  · right
    have h1b : st.da.alloc_size < n := by omega
    by_cases h2 : st.da.tp_size = 0 ∨ n = 0
    · left
      have h6 : st.da.tp_size = 0 := by
        rcases h2 with h | h
        · exact h
        · omega
      simp [h1, h1b, h6]
    · by_cases h3 : o.ptr = NULL
      · left; simp [h1, h2, h3, h1b]
      · right
        have h4 : st.da.tp_size ≠ 0 := fun h => h2 (Or.inl h)
        have h5 : n ≠ 0 := fun h => h2 (Or.inr h)
        simp [h1, h3, h1b, h4, h5]

/-- The growth step of `darray_insert` keeps the size and the element size. -/
theorem insert_base_elem_amount (w : Nat) (o : alloc_outcome) (st : State) :
    (insert_base w o st).da.elem_amount = st.da.elem_amount ∧
    (insert_base w o st).da.tp_size = st.da.tp_size := by
  unfold insert_base
  split
  · exact darray_reserve_elem_amount w o st _
  · exact ⟨rfl, rfl⟩

/-- A successful `darray_insert` had its position in range and stored the element after the growth step. -/
theorem darray_insert_of_success (w : Nat) (o : alloc_outcome) (st : State) (v : Nat → Nat)
    (pos : Nat) (h : (darray_insert w o st v pos).ret ≠ NULL) :
    pos ≤ st.da.elem_amount ∧
      darray_insert w o st v pos = darray_insert_store w (insert_base w o st) v pos := by
  unfold darray_insert at h ⊢
  unfold insert_base
  by_cases h1 : pos > st.da.elem_amount
  · simp [h1] at h
  · refine ⟨by omega, ?_⟩
    by_cases h2 : st.da.elem_amount ≥ st.da.alloc_size
    · simp only [h1, h2, if_true, if_false] at h ⊢
      by_cases h3 : (darray_reserve w o st (darray_grow_size w st.da)).ret = NULL
      · simp [h3] at h
      · simp [h3]
    · simp only [h1, h2, if_false]

/-- A successful `darray_insert` into a full array had a successful reservation. -/
theorem darray_insert_reserve_ok (w : Nat) (o : alloc_outcome) (st : State) (v : Nat → Nat)
    (pos : Nat) (h : (darray_insert w o st v pos).ret ≠ NULL)
    (hfull : st.da.elem_amount ≥ st.da.alloc_size) :
    (darray_reserve w o st (darray_grow_size w st.da)).ret ≠ NULL := by
  intro hnull
  apply h
  unfold darray_insert
  by_cases h1 : pos > st.da.elem_amount
  · rw [if_pos h1]
  · rw [if_neg h1, if_pos hfull]
    simp only [hnull, if_true]

/-- The growth target of a non-empty buffer when `C + C / 2` does not wrap. -/
theorem darray_grow_size_eq (w : Nat) (da : dyn_array) (h0 : da.alloc_size ≠ 0)
    (hf : da.alloc_size + da.alloc_size / 2 < 2 ^ w) :
    darray_grow_size w da = da.alloc_size + da.alloc_size / 2 := by
  unfold darray_grow_size
  rw [if_neg h0, Nat.shiftRight_eq_div_pow, pow_one, wrap_of_lt hf]

/-- Capacity and buffer after the growth step of `darray_insert`. -/
theorem insert_base_alloc_size (w : Nat) (o : alloc_outcome) (st : State)
    (hok : st.da.elem_amount ≥ st.da.alloc_size →
      (darray_reserve w o st (darray_grow_size w st.da)).ret ≠ NULL) :
    ((insert_base w o st).da.alloc_size =
      if st.da.elem_amount ≥ st.da.alloc_size ∧ st.da.alloc_size < darray_grow_size w st.da
      then darray_grow_size w st.da else st.da.alloc_size) ∧
    ((insert_base w o st).da.data =
      if st.da.elem_amount ≥ st.da.alloc_size ∧ st.da.alloc_size < darray_grow_size w st.da
      then o.ptr else st.da.data) := by
  unfold insert_base
  by_cases hfull : st.da.elem_amount ≥ st.da.alloc_size
  · rw [if_pos hfull]
    rcases darray_reserve_cases w o st (darray_grow_size w st.da) with hA | hB | hC
    · obtain ⟨hle, heq⟩ := hA
      rw [heq, if_neg (by omega), if_neg (by omega)]
      exact ⟨rfl, rfl⟩
    · exact absurd hB.2.2.1 (hok hfull)
    · obtain ⟨hlt, _, _, heq⟩ := hC
      rw [heq, if_pos ⟨hfull, hlt⟩, if_pos ⟨hfull, hlt⟩]
      exact ⟨rfl, rfl⟩
  · rw [if_neg hfull, if_neg (fun h => hfull h.1), if_neg (fun h => hfull h.1)]
    exact ⟨rfl, rfl⟩

/-- Capacity and buffer after a successful `darray_insert`. -/
theorem darray_insert_alloc_size (w : Nat) (o : alloc_outcome) (st : State) (v : Nat → Nat)
    (pos : Nat) (h : (darray_insert w o st v pos).ret ≠ NULL) :
    ((darray_insert w o st v pos).st.da.alloc_size =
      if st.da.elem_amount ≥ st.da.alloc_size ∧ st.da.alloc_size < darray_grow_size w st.da
      then darray_grow_size w st.da else st.da.alloc_size) ∧
    ((darray_insert w o st v pos).st.da.data =
      if st.da.elem_amount ≥ st.da.alloc_size ∧ st.da.alloc_size < darray_grow_size w st.da
      then o.ptr else st.da.data) := by
  obtain ⟨_, heq⟩ := darray_insert_of_success w o st v pos h
  obtain ⟨h1, h2, _⟩ := darray_insert_store_da w (insert_base w o st) v pos
  obtain ⟨h3, h4⟩ := insert_base_alloc_size w o st (darray_insert_reserve_ok w o st v pos h)
  rw [heq, h1, h2, h3, h4]
  exact ⟨rfl, rfl⟩

/-- The growth step of `darray_insert` preserves the bytes of the stored elements. -/
theorem insert_base_preserves (w : Nat) (o : alloc_outcome) (st : State)
    (hinv : st.da.elem_amount ≤ st.da.alloc_size)
    (hfit : (st.da.alloc_size + st.da.alloc_size / 2 + 1) * st.da.tp_size < 2 ^ w)
    (htp : st.da.tp_size ≠ 0) (off : Nat)
    (hoff : off < st.da.elem_amount * st.da.tp_size) :
    (insert_base w o st).mem ((insert_base w o st).da.data + off) =
      st.mem (st.da.data + off) := by
  have hea : st.da.elem_amount * st.da.tp_size ≤ st.da.alloc_size * st.da.tp_size :=
    Nat.mul_le_mul_right _ hinv
  have ha0 : st.da.alloc_size ≠ 0 := by
    intro h0
    rw [h0] at hea
    omega
  have hm1 : (st.da.alloc_size + st.da.alloc_size / 2) * st.da.tp_size ≤
      (st.da.alloc_size + st.da.alloc_size / 2 + 1) * st.da.tp_size :=
    Nat.mul_le_mul_right _ (by omega)
  have hm2 : st.da.alloc_size * st.da.tp_size ≤
      (st.da.alloc_size + st.da.alloc_size / 2) * st.da.tp_size :=
    Nat.mul_le_mul_right _ (by omega)
  have hg : darray_grow_size w st.da = st.da.alloc_size + st.da.alloc_size / 2 :=
    darray_grow_size_eq w st.da ha0 (lt_of_mul_lt htp (by omega))
  unfold insert_base
  by_cases hfull : st.da.elem_amount ≥ st.da.alloc_size
  · rw [if_pos hfull]
    rcases darray_reserve_cases w o st (darray_grow_size w st.da) with hA | hB | hC
    · rw [hA.2]
    · obtain ⟨_, _, _, hda, hmem⟩ := hB
      rw [hda, hmem]
    · obtain ⟨hlt, _, _, heq⟩ := hC
      rw [heq, hg]
      rw [hg] at hlt
      have hm3 : st.da.alloc_size * st.da.tp_size <
          (st.da.alloc_size + st.da.alloc_size / 2) * st.da.tp_size := by
        have := slot_le st.da.tp_size hlt
        omega
      simp only [realloc_mem]
      rw [wrap_of_lt (by omega), wrap_of_lt (by omega)]
      rw [if_pos ⟨by omega, by omega⟩, if_pos (by omega)]
      congr 1
      omega
  · rw [if_neg hfull]

/-- The store step leaves the slots below `p` alone and moves the slots from `p` on up by one. -/
theorem store_mem_shift (w : Nat) (st : State) (v : Nat → Nat) (p : Nat)
    (hp : p ≤ st.da.elem_amount)
    (hfit : (st.da.elem_amount + 1) * st.da.tp_size < 2 ^ w) (i b : Nat)
    (hb : b < st.da.tp_size) :
    (i < p →
      store_mem w st v p (st.da.data + i * st.da.tp_size + b) =
        st.mem (st.da.data + i * st.da.tp_size + b)) ∧
    (p < i → i ≤ st.da.elem_amount →
      store_mem w st v p (st.da.data + i * st.da.tp_size + b) =
        st.mem (st.da.data + (i - 1) * st.da.tp_size + b)) := by
  have ke : (st.da.elem_amount + 1) * st.da.tp_size =
      st.da.elem_amount * st.da.tp_size + st.da.tp_size := Nat.succ_mul _ _
  have kp1 : (p + 1) * st.da.tp_size = p * st.da.tp_size + st.da.tp_size := Nat.succ_mul _ _
  have kpe : p * st.da.tp_size ≤ st.da.elem_amount * st.da.tp_size :=
    Nat.mul_le_mul_right _ hp
  have ksub : (st.da.elem_amount - p) * st.da.tp_size =
      st.da.elem_amount * st.da.tp_size - p * st.da.tp_size := Nat.sub_mul _ _ _
  have w1 : wrap w (p * st.da.tp_size) = p * st.da.tp_size := wrap_of_lt (by omega)
  have w2 : wrap w ((p + 1) * st.da.tp_size) = p * st.da.tp_size + st.da.tp_size := by
    rw [wrap_of_lt (by omega), kp1]
  have w3 : wrap w ((st.da.elem_amount - p) * st.da.tp_size) =
      st.da.elem_amount * st.da.tp_size - p * st.da.tp_size := by
    rw [wrap_of_lt (by omega), ksub]
  unfold store_mem
  rw [w1, w2, w3]
  constructor
  · intro hi
    have kip : i * st.da.tp_size + st.da.tp_size ≤ p * st.da.tp_size := slot_le _ hi
    simp only [memcpy]
    rw [if_neg (by omega)]
    by_cases hpe : p < st.da.elem_amount
    · rw [if_pos hpe]
      simp only [memmove]
      rw [if_neg (by omega)]
    · rw [if_neg hpe]
  · intro hi1 hi2
    have hpe : p < st.da.elem_amount := by omega
    have kpi : p * st.da.tp_size + st.da.tp_size ≤ i * st.da.tp_size := slot_le _ hi1
    have kie : i * st.da.tp_size ≤ st.da.elem_amount * st.da.tp_size :=
      Nat.mul_le_mul_right _ hi2
    have ki1 : (i - 1) * st.da.tp_size + st.da.tp_size = i * st.da.tp_size := by
      have : i - 1 + 1 = i := by omega
      rw [← Nat.succ_mul, Nat.succ_eq_add_one, this]
    simp only [memcpy]
    rw [if_neg (by omega), if_pos hpe]
    simp only [memmove]
    rw [if_pos ⟨by omega, by omega⟩]
    congr 1
    omega

/-- After a successful `darray_insert` at `p`, `darray_at` at `p` returns the inserted bytes. -/
theorem darray_insert_at_self (w : Nat) (o : alloc_outcome) (st : State) (v : Nat → Nat)
    (p : Nat) (he : st.da.elem_amount + 1 < 2 ^ w)
    (h : (darray_insert w o st v p).ret ≠ NULL) :
    p ≤ st.da.elem_amount ∧
    (darray_at w (darray_insert w o st v p).st p).ret ≠ NULL ∧
    (darray_at w (darray_insert w o st v p).st p).ret = (darray_insert w o st v p).ret ∧
    (darray_at w (darray_insert w o st v p).st p).st = (darray_insert w o st v p).st ∧
    (darray_insert w o st v p).st.da.tp_size = st.da.tp_size ∧
    ∀ b, b < st.da.tp_size →
      (darray_insert w o st v p).st.mem
        ((darray_at w (darray_insert w o st v p).st p).ret + b) = v b := by
  obtain ⟨hpos, heq⟩ := darray_insert_of_success w o st v p h
  obtain ⟨hbe, hbt⟩ := insert_base_elem_amount w o st
  have hpos1 : p ≤ (insert_base w o st).da.elem_amount := by rw [hbe]; exact hpos
  have he1 : (insert_base w o st).da.elem_amount + 1 < 2 ^ w := by rw [hbe]; exact he
  have hst := darray_insert_store_eq w (insert_base w o st) v p hpos1 he1
  rw [heq] at h ⊢
  rw [hst] at h ⊢
  have hlt : ¬ p ≥ (insert_base w o st).da.elem_amount + 1 := by omega
  simp only [darray_at, hlt, if_false] at h ⊢
  refine ⟨hpos, h, trivial, trivial, hbt, ?_⟩
  intro b hb
  rw [← hbt] at hb
  simp only [store_mem, memcpy]
  rw [if_pos ⟨by omega, by omega⟩]
  congr 1
  omega

/-- Effect of a successful `darray_insert` on the size and on the other elements. -/
theorem darray_insert_effect (w : Nat) (o : alloc_outcome) (st : State) (v : Nat → Nat)
    (p : Nat) (hinv : st.da.elem_amount ≤ st.da.alloc_size)
    (hfit : (st.da.alloc_size + st.da.alloc_size / 2 + 1) * st.da.tp_size < 2 ^ w)
    (htp : st.da.tp_size ≠ 0)
    (h : (darray_insert w o st v p).ret ≠ NULL) :
    p ≤ st.da.elem_amount ∧
    (darray_insert w o st v p).st.da.elem_amount = st.da.elem_amount + 1 ∧
    (darray_insert w o st v p).st.da.tp_size = st.da.tp_size ∧
    ∀ i b, b < st.da.tp_size →
      (i < p →
        (darray_insert w o st v p).st.mem
            ((darray_at w (darray_insert w o st v p).st i).ret + b) =
          st.mem ((darray_at w st i).ret + b)) ∧
      (p < i → i ≤ st.da.elem_amount →
        (darray_insert w o st v p).st.mem
            ((darray_at w (darray_insert w o st v p).st i).ret + b) =
          st.mem ((darray_at w st (i - 1)).ret + b)) := by
  obtain ⟨hpos, heq⟩ := darray_insert_of_success w o st v p h
  obtain ⟨hbe, hbt⟩ := insert_base_elem_amount w o st
  have hm1 : (st.da.elem_amount + 1) * st.da.tp_size ≤
      (st.da.alloc_size + st.da.alloc_size / 2 + 1) * st.da.tp_size :=
    Nat.mul_le_mul_right _ (by omega)
  have hfit1 : (st.da.elem_amount + 1) * st.da.tp_size < 2 ^ w := by omega
  have he : st.da.elem_amount + 1 < 2 ^ w := lt_of_mul_lt htp hfit1
  have hst := darray_insert_store_eq w (insert_base w o st) v p (by rw [hbe]; exact hpos)
    (by rw [hbe]; exact he)
  rw [heq, hst]
  refine ⟨hpos, ?_, hbt, ?_⟩
  · show (insert_base w o st).da.elem_amount + 1 = st.da.elem_amount + 1
    rw [hbe]
  · intro i b hb
    have ke : (st.da.elem_amount + 1) * st.da.tp_size =
        st.da.elem_amount * st.da.tp_size + st.da.tp_size := Nat.succ_mul _ _
    have hsh := store_mem_shift w (insert_base w o st) v p (by rw [hbe]; exact hpos)
      (by rw [hbe, hbt]; exact hfit1) i b (by rw [hbt]; exact hb)
    rw [hbt, hbe] at hsh
    constructor
    · intro hi
      have ki : i * st.da.tp_size + st.da.tp_size ≤ st.da.elem_amount * st.da.tp_size :=
        slot_le _ (by omega)
      rw [darray_at_ret_of_lt w _ i
        (by show i < (insert_base w o st).da.elem_amount + 1; rw [hbe]; omega)
        (by show i * (insert_base w o st).da.tp_size < 2 ^ w; rw [hbt]; omega)]
      rw [darray_at_ret_of_lt w st i (by omega) (by omega)]
      show store_mem w (insert_base w o st) v p
        ((insert_base w o st).da.data + i * (insert_base w o st).da.tp_size + b) = _
      rw [hbt, hsh.1 hi, Nat.add_assoc, insert_base_preserves w o st hinv hfit htp _ (by omega),
        Nat.add_assoc]
    · intro hi1 hi2
      have ki : (i - 1) * st.da.tp_size + st.da.tp_size ≤
          st.da.elem_amount * st.da.tp_size := slot_le _ (by omega)
      have ki2 : i * st.da.tp_size ≤ st.da.elem_amount * st.da.tp_size :=
        Nat.mul_le_mul_right _ hi2
      rw [darray_at_ret_of_lt w _ i
        (by show i < (insert_base w o st).da.elem_amount + 1; rw [hbe]; omega)
        (by show i * (insert_base w o st).da.tp_size < 2 ^ w; rw [hbt]; omega)]
      rw [darray_at_ret_of_lt w st (i - 1) (by omega) (by omega)]
      show store_mem w (insert_base w o st) v p
        ((insert_base w o st).da.data + i * (insert_base w o st).da.tp_size + b) = _
      rw [hbt, hsh.2 hi1 hi2, Nat.add_assoc,
        insert_base_preserves w o st hinv hfit htp _ (by omega), Nat.add_assoc]

/-- With a reallocation that succeeds, `darray_insert` at a position in range succeeds. -/
theorem darray_insert_succeeds (w : Nat) (o : alloc_outcome) (st : State) (v : Nat → Nat)
    (pos : Nat) (hpos : pos ≤ st.da.elem_amount) (ho : o.ptr ≠ NULL)
    (htp : st.da.tp_size ≠ 0) (hdata : st.da.alloc_size ≠ 0 → st.da.data ≠ NULL)
    (he : st.da.elem_amount + 1 < 2 ^ w) : (darray_insert w o st v pos).ret ≠ NULL := by
  intro hret
  have h1 : ¬ pos > st.da.elem_amount := by omega
  unfold darray_insert at hret
  simp only [h1, if_false] at hret
  by_cases h2 : st.da.elem_amount ≥ st.da.alloc_size
  · simp only [h2, if_true] at hret
    rcases darray_reserve_cases w o st (darray_grow_size w st.da) with hA | hB | hC
    · obtain ⟨hle, heq⟩ := hA
      have ha : st.da.alloc_size ≠ 0 := by
        intro h0
        simp [darray_grow_size, h0, DARRAY_INITIAL_SIZE] at hle
      rw [heq] at hret
      simp only [hdata ha, if_false] at hret
      exact darray_insert_store_ret w st v pos hpos he (hdata ha) hret
    · obtain ⟨_, hor, _⟩ := hB
      rcases hor with h | h
      · exact htp h
      · exact ho h
    · obtain ⟨_, _, _, heq⟩ := hC
      rw [heq] at hret
      simp only [ho, if_false] at hret
      refine darray_insert_store_ret w _ v pos ?_ ?_ ?_ hret
      · exact hpos
      · exact he
      · exact ho
  · simp only [h2, if_false] at hret
    have ha : st.da.alloc_size ≠ 0 := by omega
    exact darray_insert_store_ret w st v pos hpos he (hdata ha) hret

/-- A fresh array satisfies the `push_back` invariant for zero elements. -/
theorem push_inv_fresh (w s : Nat) (vals : Nat → Nat → Nat) (mem : Nat → Nat) (errno : Nat) :
    push_inv w s vals 0 (fresh_state s mem errno) := by
  refine ⟨rfl, rfl, Nat.le_refl _, Or.inl rfl, by simp [fresh_state], ?_, ?_⟩
  · intro h; exact absurd rfl h
  · intro k b hk; omega

/-- One more successful `push_back` re-establishes the invariant. -/
theorem push_inv_step (w s : Nat) (vals : Nat → Nat → Nat) (n : Nat) (st : State)
    (o : alloc_outcome) (hinv : push_inv w s vals n st) (hs : s ≠ 0)
    (hfit : (3 * n + 9) * s < 2 ^ w) (ho : o.ptr ≠ NULL) :
    push_inv w s vals (n + 1) (darray_push_back w o st (vals n)).st := by
  obtain ⟨htp, he, hcap, h05, hub, hdata, hmem⟩ := hinv
  have hm1 : (st.da.alloc_size + st.da.alloc_size / 2 + 1) * s ≤ (3 * n + 9) * s :=
    Nat.mul_le_mul_right _ (by omega)
  have hfit1 : (st.da.alloc_size + st.da.alloc_size / 2 + 1) * st.da.tp_size < 2 ^ w := by
    rw [htp]; omega
  have htp0 : st.da.tp_size ≠ 0 := by rw [htp]; exact hs
  have hlt : st.da.alloc_size + st.da.alloc_size / 2 + 1 < 2 ^ w := lt_of_mul_lt htp0 hfit1
  have he1 : st.da.elem_amount + 1 < 2 ^ w := by omega
  unfold darray_push_back darray_size
  have hret := darray_insert_succeeds w o st (vals n) st.da.elem_amount (Nat.le_refl _) ho htp0
    hdata he1
  obtain ⟨_, he2, htp2, hsh⟩ := darray_insert_effect w o st (vals n) st.da.elem_amount
    (by omega) hfit1 htp0 hret
  obtain ⟨_, _, _, _, _, hself⟩ := darray_insert_at_self w o st (vals n) st.da.elem_amount he1 hret
  obtain ⟨hal, hdt⟩ := darray_insert_alloc_size w o st (vals n) st.da.elem_amount hret
  have hcases :
      ((darray_insert w o st (vals n) st.da.elem_amount).st.da.alloc_size = 5 ∧ n = 0 ∧
        (darray_insert w o st (vals n) st.da.elem_amount).st.da.data = o.ptr) ∨
      ((darray_insert w o st (vals n) st.da.elem_amount).st.da.alloc_size = st.da.alloc_size ∧
        n < st.da.alloc_size ∧
        (darray_insert w o st (vals n) st.da.elem_amount).st.da.data = st.da.data) ∨
      ((darray_insert w o st (vals n) st.da.elem_amount).st.da.alloc_size =
          st.da.alloc_size + st.da.alloc_size / 2 ∧
        n = st.da.alloc_size ∧ 5 ≤ st.da.alloc_size ∧
        (darray_insert w o st (vals n) st.da.elem_amount).st.da.data = o.ptr) := by
    by_cases h0 : st.da.alloc_size = 0
    · have hg : darray_grow_size w st.da = 5 := by
        simp [darray_grow_size, h0, DARRAY_INITIAL_SIZE]
      rw [hg, if_pos ⟨by omega, by omega⟩] at hal hdt
      exact Or.inl ⟨hal, by omega, hdt⟩
    · have hg := darray_grow_size_eq w st.da h0 (by omega)
      rw [hg] at hal hdt
      by_cases hfull : st.da.elem_amount ≥ st.da.alloc_size
      · rw [if_pos ⟨hfull, by omega⟩] at hal hdt
        exact Or.inr (Or.inr ⟨hal, by omega, by omega, hdt⟩)
      · rw [if_neg (fun h => hfull h.1)] at hal hdt
        exact Or.inr (Or.inl ⟨hal, by omega, hdt⟩)
  refine ⟨by rw [htp2, htp], by rw [he2, he], ?_, ?_, ?_, ?_, ?_⟩
  · rcases hcases with h | h | h <;> omega
  · rcases hcases with h | h | h <;> omega
  · rcases hcases with h | h | h <;> omega
  · intro _
    rcases hcases with h | h | h
    · rw [h.2.2]; exact ho
    · rw [h.2.2]; exact hdata (by omega)
    · rw [h.2.2.2]; exact ho
  · intro k b hk hb
    by_cases hkn : k = n
    · have hidx : k = st.da.elem_amount := by omega
      rw [hidx]
      exact (hself b (by rw [htp]; exact hb)).trans (by rw [he])
    · have hk2 : k < st.da.elem_amount := by omega
      rw [(hsh k b (by rw [htp]; exact hb)).1 hk2]
      exact hmem k b (by omega) hb

/-- The invariant holds after `n` calls of `push_back` answered by a succeeding allocator. -/
theorem push_back_n_inv (w s : Nat) (outs : Nat → alloc_outcome) (vals : Nat → Nat → Nat)
    (mem : Nat → Nat) (errno : Nat) (n : Nat) (hs : s ≠ 0) (hfit : (3 * n + 9) * s < 2 ^ w)
    (hok : ∀ k, k < n → (outs k).ptr ≠ NULL) :
    push_inv w s vals n (push_back_n w outs vals (fresh_state s mem errno) n) := by
  induction n with
  | zero => exact push_inv_fresh w s vals mem errno
  | succ m ih =>
    have hm : (3 * m + 9) * s ≤ (3 * (m + 1) + 9) * s := Nat.mul_le_mul_right _ (by omega)
    have ih1 := ih (by omega) (fun k hk => hok k (by omega))
    exact push_inv_step w s vals m _ (outs m) ih1 hs (by omega) (hok m (by omega))

/-- The function `darray_reserve` keeps the buffer absent exactly when the capacity is zero. -/
theorem darray_reserve_buffer_inv (w : Nat) (o : alloc_outcome) (st : State) (n : Nat)
    (h : buffer_inv st) : buffer_inv (darray_reserve w o st n).st := by
  unfold buffer_inv at h ⊢
  rcases darray_reserve_cases w o st n with hA | hB | hC
  · rw [hA.2]; exact h
  · rw [hB.2.2.2.1]; exact h
  · obtain ⟨hlt, _, ho, heq⟩ := hC
    rw [heq]
    constructor
    · intro h0
      have : n = 0 := h0
      omega
    · intro h0
      exact absurd h0 ho

/-- The function `darray_insert` keeps the buffer absent exactly when the capacity is zero. -/
theorem darray_insert_buffer_inv (w : Nat) (o : alloc_outcome) (st : State) (v : Nat → Nat)
    (pos : Nat) (h : buffer_inv st) : buffer_inv (darray_insert w o st v pos).st := by
  have hstore : ∀ s : State, buffer_inv s → buffer_inv (darray_insert_store w s v pos).st := by
    intro s hs
    obtain ⟨h1, h2, _⟩ := darray_insert_store_da w s v pos
    unfold buffer_inv at hs ⊢
    rw [h1, h2]
    exact hs
  have hres := darray_reserve_buffer_inv w o st (darray_grow_size w st.da) h
  unfold darray_insert
  split
  · exact h
  · split
    · dsimp only
      split
      · exact hres
      · exact hstore _ hres
    · exact hstore _ h

/-- The function `darray_erase` keeps the buffer absent exactly when the capacity is zero. -/
theorem darray_erase_buffer_inv (w : Nat) (st : State) (pos : Nat) (h : buffer_inv st) :
    buffer_inv (darray_erase w st pos).st := by
  unfold darray_erase
  split
  · exact h
  · split
    · exact h
    · split <;> exact h

/-- Every operation keeps the buffer absent exactly when the capacity is zero. -/
theorem step_buffer_inv (w : Nat) (st : State) (op : Op) (h : buffer_inv st) :
    buffer_inv (step w st op) := by
  cases op with
  | reserve n o => exact darray_reserve_buffer_inv w o st n h
  | resize n o =>
    have hres := darray_reserve_buffer_inv w o st n h
    simp only [step, darray_resize]
    split
    · exact hres
    · exact hres
  | clear => exact h
  | insert v pos o => exact darray_insert_buffer_inv w o st v pos h
  | erase pos => exact darray_erase_buffer_inv w st pos h
  | push_back v o => exact darray_insert_buffer_inv w o st v _ h
  | pop_back => exact darray_erase_buffer_inv w st _ h
  | push_front v o => exact darray_insert_buffer_inv w o st v 0 h
  | pop_front => exact darray_erase_buffer_inv w st 0 h

/-- After any sequence of operations the buffer is absent exactly when the capacity is zero. -/
theorem run_buffer_inv (w : Nat) (ops : List Op) (st : State) (h : buffer_inv st) :
    buffer_inv (run w st ops) := by
  induction ops generalizing st with
  | nil => exact h
  | cons op rest ih => exact ih (step w st op) (step_buffer_inv w st op h)

/-- A freshly constructed array has capacity zero and no buffer. -/
theorem fresh_state_buffer_inv (s : Nat) (mem : Nat → Nat) (errno : Nat) :
    buffer_inv (fresh_state s mem errno) := by
  unfold buffer_inv fresh_state
  exact ⟨fun _ => rfl, fun _ => rfl⟩

/-! ## The claims -/

/-- C1 (failing input). On a fresh array of element size 4, `reserve(1)` followed by two
`push_back` calls leaves size 2 with capacity 1: the second call computes the growth
target `1 + (1 >> 1) = 1`, reserves nothing, and stores its four bytes at address
4100, past the end of the four-byte buffer at 4096. So `size <= capacity` fails. -/
theorem reserve_one_then_two_pushes :
    (run 64 (fresh_state 4 (fun _ => 0) 0)
      [Op.reserve 1 (alloc_ok 4096), Op.push_back (int_bytes 42) (alloc_ok 8192),
        Op.push_back (int_bytes 43) (alloc_ok 8192)]).da.elem_amount = 2 ∧
    (run 64 (fresh_state 4 (fun _ => 0) 0)
      [Op.reserve 1 (alloc_ok 4096), Op.push_back (int_bytes 42) (alloc_ok 8192),
        Op.push_back (int_bytes 43) (alloc_ok 8192)]).da.alloc_size = 1 ∧
    (run 64 (fresh_state 4 (fun _ => 0) 0)
      [Op.reserve 1 (alloc_ok 4096), Op.push_back (int_bytes 42) (alloc_ok 8192),
        Op.push_back (int_bytes 43) (alloc_ok 8192)]).da.data = 4096 ∧
    (run 64 (fresh_state 4 (fun _ => 0) 0)
      [Op.reserve 1 (alloc_ok 4096), Op.push_back (int_bytes 42) (alloc_ok 8192),
        Op.push_back (int_bytes 43) (alloc_ok 8192)]).mem 4100 = 43 := by
  decide

/-- C2. If `insert(v, p)` succeeds on an array whose size plus one is representable in
`size_t`, then `p <= size`, the following `at(p)` succeeds (it returns the non-null
pointer `insert` returned and leaves the state, `errno` included, as it is), and the
`stride` bytes it refers to are the bytes of `v`. -/
theorem darray_insert_then_at (w : Nat) (o : alloc_outcome) (st : State) (v : Nat → Nat)
    (p : Nat) (he : st.da.elem_amount + 1 < 2 ^ w)
    (h : (darray_insert w o st v p).ret ≠ NULL) :
    p ≤ st.da.elem_amount ∧
    (darray_at w (darray_insert w o st v p).st p).ret ≠ NULL ∧
    (darray_at w (darray_insert w o st v p).st p).ret = (darray_insert w o st v p).ret ∧
    (darray_at w (darray_insert w o st v p).st p).st = (darray_insert w o st v p).st ∧
    (darray_insert w o st v p).st.da.tp_size = st.da.tp_size ∧
    ∀ b, b < st.da.tp_size →
      (darray_insert w o st v p).st.mem
        ((darray_at w (darray_insert w o st v p).st p).ret + b) = v b :=
  darray_insert_at_self w o st v p he h

/-- C2, at a concrete input: the value 42 inserted at position 0 of a fresh array of
element size 4 is read back by `at(0)`. -/
theorem darray_insert_then_at_witness :
    (fresh_state 4 (fun _ => 0) 0).da.elem_amount + 1 < 2 ^ 64 ∧
    (darray_insert 64 (alloc_ok 4096) (fresh_state 4 (fun _ => 0) 0) (int_bytes 42) 0).ret ≠
      NULL ∧
    ∀ b, b < (fresh_state 4 (fun _ => 0) 0).da.tp_size →
      (darray_insert 64 (alloc_ok 4096) (fresh_state 4 (fun _ => 0) 0) (int_bytes 42) 0).st.mem
        ((darray_at 64
          (darray_insert 64 (alloc_ok 4096) (fresh_state 4 (fun _ => 0) 0) (int_bytes 42) 0).st
          0).ret + b) = int_bytes 42 b :=
  ⟨by decide, by decide,
    (darray_insert_then_at 64 (alloc_ok 4096) (fresh_state 4 (fun _ => 0) 0) (int_bytes 42) 0
      (by decide) (by decide)).2.2.2.2.2⟩

/-- C3. On a freshly constructed array of stride `s > 0`, `n` calls `push_back(vals 0)`,
..., `push_back(vals (n - 1))`, each answered by a reallocation that does not fail,
give size `n`, capacity at least `n`, and for every `k < n` a successful `at(k)` whose
`s` bytes are those of `vals k`; the byte sizes involved are assumed representable in
`size_t` (`(3 * n + 9) * s < 2 ^ w`). -/
theorem push_back_n_spec (w s : Nat) (outs : Nat → alloc_outcome) (vals : Nat → Nat → Nat)
    (mem : Nat → Nat) (errno : Nat) (n : Nat) (hs : s ≠ 0) (hfit : (3 * n + 9) * s < 2 ^ w)
    (hok : ∀ k, k < n → (outs k).ptr ≠ NULL) :
    (push_back_n w outs vals (fresh_state s mem errno) n).da.elem_amount = n ∧
    n ≤ (push_back_n w outs vals (fresh_state s mem errno) n).da.alloc_size ∧
    ∀ k, k < n →
      (darray_at w (push_back_n w outs vals (fresh_state s mem errno) n) k).ret ≠ NULL ∧
      (darray_at w (push_back_n w outs vals (fresh_state s mem errno) n) k).st =
        push_back_n w outs vals (fresh_state s mem errno) n ∧
      ∀ b, b < s →
        (push_back_n w outs vals (fresh_state s mem errno) n).mem
          ((darray_at w (push_back_n w outs vals (fresh_state s mem errno) n) k).ret + b) =
            vals k b := by
  obtain ⟨_, he, hcap, _, _, hdata, hmem⟩ :=
    push_back_n_inv w s outs vals mem errno n hs hfit hok
  refine ⟨he, hcap, ?_⟩
  intro k hk
  have hge : ¬ k ≥ (push_back_n w outs vals (fresh_state s mem errno) n).da.elem_amount := by
    omega
  refine ⟨?_, ?_, fun b hb => hmem k b hk hb⟩
  · have hd := hdata (by omega)
    simp only [darray_at, hge, if_false, NULL] at hd ⊢
    omega
  · simp only [darray_at, hge, if_false]

/-- C3, at the input of the resizing test: 100 integers of 4 bytes, `vals k = k`. The
capacities met on the way are 0, 5, 7, 10, 15, 22, 33, 49, 73, 109. -/
theorem push_back_n_spec_witness :
    ((push_back_n 64 (fun k => alloc_ok (4096 * (k + 1))) int_bytes
        (fresh_state 4 (fun _ => 0) 0) 100).da.elem_amount = 100 ∧
      100 ≤ (push_back_n 64 (fun k => alloc_ok (4096 * (k + 1))) int_bytes
        (fresh_state 4 (fun _ => 0) 0) 100).da.alloc_size ∧
      ∀ k, k < 100 →
        (darray_at 64 (push_back_n 64 (fun k => alloc_ok (4096 * (k + 1))) int_bytes
          (fresh_state 4 (fun _ => 0) 0) 100) k).ret ≠ NULL ∧
        (darray_at 64 (push_back_n 64 (fun k => alloc_ok (4096 * (k + 1))) int_bytes
          (fresh_state 4 (fun _ => 0) 0) 100) k).st =
          push_back_n 64 (fun k => alloc_ok (4096 * (k + 1))) int_bytes
            (fresh_state 4 (fun _ => 0) 0) 100 ∧
        ∀ b, b < 4 →
          (push_back_n 64 (fun k => alloc_ok (4096 * (k + 1))) int_bytes
            (fresh_state 4 (fun _ => 0) 0) 100).mem
            ((darray_at 64 (push_back_n 64 (fun k => alloc_ok (4096 * (k + 1))) int_bytes
              (fresh_state 4 (fun _ => 0) 0) 100) k).ret + b) = int_bytes k b) ∧
    (List.map
      (fun n => (push_back_n 64 (fun k => alloc_ok (4096 * (k + 1))) int_bytes
        (fresh_state 4 (fun _ => 0) 0) n).da.alloc_size)
      [0, 1, 6, 8, 11, 16, 23, 34, 50, 74, 100]) = [0, 5, 7, 10, 15, 22, 33, 49, 73, 109, 109] :=
  ⟨push_back_n_spec 64 4 (fun k => alloc_ok (4096 * (k + 1))) int_bytes (fun _ => 0) 0 100
      (by decide) (by decide) (fun k _ => by simp [alloc_ok, NULL]),
    by decide⟩

/-- C4 (as amended). For a full array (`size == capacity == C`) with `C != 1` and
`C + C / 2` representable in `size_t`, after a successful insert the capacity is 5 if
`C == 0` and `C + C / 2` otherwise, and it is strictly greater than `C`. -/
theorem darray_insert_growth (w : Nat) (o : alloc_outcome) (st : State) (v : Nat → Nat)
    (pos : Nat) (hfull : st.da.elem_amount = st.da.alloc_size)
    (hone : st.da.alloc_size ≠ 1)
    (hno : st.da.alloc_size + st.da.alloc_size / 2 < 2 ^ w)
    (h : (darray_insert w o st v pos).ret ≠ NULL) :
    (darray_insert w o st v pos).st.da.alloc_size =
      (if st.da.alloc_size = 0 then 5 else st.da.alloc_size + st.da.alloc_size / 2) ∧
    st.da.alloc_size < (darray_insert w o st v pos).st.da.alloc_size := by
  obtain ⟨h1, _⟩ := darray_insert_alloc_size w o st v pos h
  rw [h1]
  by_cases h0 : st.da.alloc_size = 0
  · have hg : darray_grow_size w st.da = 5 := by
      simp [darray_grow_size, h0, DARRAY_INITIAL_SIZE]
    rw [hg, if_pos ⟨by omega, by omega⟩, if_pos h0]
    exact ⟨rfl, by omega⟩
  · have hg := darray_grow_size_eq w st.da h0 hno
    rw [hg, if_pos ⟨by omega, by omega⟩, if_neg h0]
    exact ⟨rfl, by omega⟩

/-- C4 (as amended), at a concrete input: the first insert into a fresh array of element
size 4 raises the capacity from 0 to 5. -/
theorem darray_insert_growth_witness :
    (fresh_state 4 (fun _ => 0) 0).da.elem_amount = (fresh_state 4 (fun _ => 0) 0).da.alloc_size ∧
    (fresh_state 4 (fun _ => 0) 0).da.alloc_size ≠ 1 ∧
    (darray_insert 64 (alloc_ok 4096) (fresh_state 4 (fun _ => 0) 0) (int_bytes 42) 0).ret ≠
      NULL ∧
    (darray_insert 64 (alloc_ok 4096) (fresh_state 4 (fun _ => 0) 0) (int_bytes 42)
      0).st.da.alloc_size =
        (if (fresh_state 4 (fun _ => 0) 0).da.alloc_size = 0 then 5
          else (fresh_state 4 (fun _ => 0) 0).da.alloc_size +
            (fresh_state 4 (fun _ => 0) 0).da.alloc_size / 2) ∧
    (fresh_state 4 (fun _ => 0) 0).da.alloc_size <
      (darray_insert 64 (alloc_ok 4096) (fresh_state 4 (fun _ => 0) 0) (int_bytes 42)
        0).st.da.alloc_size :=
  ⟨by decide, by decide, by decide,
    darray_insert_growth 64 (alloc_ok 4096) (fresh_state 4 (fun _ => 0) 0) (int_bytes 42) 0
      (by decide) (by decide) (by decide) (by decide)⟩

/-- C4 (counterexample). A full array of capacity 1 (element size 4, after `reserve(1)`
and one `push_back`): the insert at position 1 succeeds and the capacity is still 1,
not strictly greater than 1. -/
theorem insert_full_capacity_one_no_growth :
    full_one_state.da.elem_amount = 1 ∧ full_one_state.da.alloc_size = 1 ∧
    (darray_insert 64 (alloc_ok 8192) full_one_state (int_bytes 43) 1).ret ≠ NULL ∧
    (darray_insert 64 (alloc_ok 8192) full_one_state (int_bytes 43) 1).st.da.alloc_size = 1 ∧
    ¬ (full_one_state.da.alloc_size <
      (darray_insert 64 (alloc_ok 8192) full_one_state (int_bytes 43) 1).st.da.alloc_size) := by
  decide

/-- C5 (failing input). On the one-element array left by `insert(42, 0)`, `erase(1)`
(`pos == size`) is not rejected: it returns the non-null buffer, does not store
`ERANGE` in `errno`, and the size is still 1. -/
theorem darray_erase_at_size_accepted :
    one_elem_state.da.elem_amount = 1 ∧
    (darray_erase 64 one_elem_state 1).ret ≠ NULL ∧
    (darray_erase 64 one_elem_state 1).st.errno = one_elem_state.errno ∧
    (darray_erase 64 one_elem_state 1).st.errno ≠ ERANGE ∧
    (darray_erase 64 one_elem_state 1).st.da.elem_amount = 1 := by
  decide

/-- C6. For `pos < size` (the byte size `size * stride` representable in `size_t`),
`erase(pos)` returns the buffer, decrements the size by one, leaves capacity, stride,
buffer address and `errno` as they are, leaves the element at every index `i < pos`
unchanged, and makes the element at every index `i` with `pos <= i < size - 1` equal
to the element that was at index `i + 1`. Elements are read through `darray_at`. -/
theorem darray_erase_shift (w : Nat) (st : State) (pos : Nat)
    (hpos : pos < st.da.elem_amount) (hfit : st.da.elem_amount * st.da.tp_size < 2 ^ w) :
    (darray_erase w st pos).ret = st.da.data ∧
    (darray_erase w st pos).st.da.elem_amount = st.da.elem_amount - 1 ∧
    (darray_erase w st pos).st.da.alloc_size = st.da.alloc_size ∧
    (darray_erase w st pos).st.da.tp_size = st.da.tp_size ∧
    (darray_erase w st pos).st.da.data = st.da.data ∧
    (darray_erase w st pos).st.errno = st.errno ∧
    ∀ i b, b < st.da.tp_size →
      (i < pos →
        (darray_erase w st pos).st.mem ((darray_at w (darray_erase w st pos).st i).ret + b) =
          st.mem ((darray_at w st i).ret + b)) ∧
      (pos ≤ i → i < st.da.elem_amount - 1 →
        (darray_erase w st pos).st.mem ((darray_at w (darray_erase w st pos).st i).ret + b) =
          st.mem ((darray_at w st (i + 1)).ret + b)) := by
  have hg : ¬ (pos > st.da.elem_amount ∨ st.da.elem_amount = 0) := by omega
  have key : ∀ j, j < st.da.elem_amount → j * st.da.tp_size + st.da.tp_size ≤
      st.da.elem_amount * st.da.tp_size := fun j hj => slot_le st.da.tp_size hj
  by_cases ht : pos = st.da.elem_amount - 1
  · have heq : darray_erase w st pos =
        { ret := st.da.data,
          st := { st with da := { st.da with elem_amount := st.da.elem_amount - 1 } } } := by
      unfold darray_erase
      rw [if_neg hg, if_pos ht]
    rw [heq]
    refine ⟨rfl, rfl, rfl, rfl, rfl, rfl, ?_⟩
    intro i b _
    constructor
    · intro hi
      have h1 : ¬ i ≥ st.da.elem_amount - 1 := by omega
      have h2 : ¬ i ≥ st.da.elem_amount := by omega
      simp only [darray_at, h1, h2, if_false]
    · intro h1 h2
      omega
  · have hlt : pos < st.da.elem_amount - 1 := by omega
    have heq : darray_erase w st pos =
        { ret := st.da.data,
          st :=
            { st with
              da := { st.da with elem_amount := st.da.elem_amount - 1 },
              mem := memmove st.mem (st.da.data + wrap w (pos * st.da.tp_size))
                (st.da.data + wrap w ((pos + 1) * st.da.tp_size))
                (wrap w ((st.da.elem_amount - pos) * st.da.tp_size)) } } := by
      unfold darray_erase
      rw [if_neg hg, if_neg ht, if_pos hlt]
    rw [heq]
    refine ⟨rfl, rfl, rfl, rfl, rfl, rfl, ?_⟩
    have kp := key pos hpos
    have k1 : (pos + 1) * st.da.tp_size = pos * st.da.tp_size + st.da.tp_size := Nat.succ_mul _ _
    have k2 : (st.da.elem_amount - pos) * st.da.tp_size =
        st.da.elem_amount * st.da.tp_size - pos * st.da.tp_size := Nat.sub_mul _ _ _
    have w1 : wrap w (pos * st.da.tp_size) = pos * st.da.tp_size := wrap_of_lt (by omega)
    have w2 : wrap w ((pos + 1) * st.da.tp_size) = pos * st.da.tp_size + st.da.tp_size := by
      rw [wrap_of_lt (by omega), k1]
    have w3 : wrap w ((st.da.elem_amount - pos) * st.da.tp_size) =
        st.da.elem_amount * st.da.tp_size - pos * st.da.tp_size := by
      rw [wrap_of_lt (by omega), k2]
    rw [w1, w2, w3]
    intro i b hb
    constructor
    · intro hi
      have ki := key i (by omega)
      have kip : i * st.da.tp_size + st.da.tp_size ≤ pos * st.da.tp_size := slot_le _ hi
      rw [darray_at_ret_of_lt w _ i (by show i < st.da.elem_amount - 1; omega)
        (by show i * st.da.tp_size < 2 ^ w; omega)]
      rw [darray_at_ret_of_lt w st i (by omega) (by omega)]
      simp only [memmove]
      rw [if_neg (by omega)]
    · intro hi1 hi2
      have ki := key (i + 1) (by omega)
      have k3 : (i + 1) * st.da.tp_size = i * st.da.tp_size + st.da.tp_size := Nat.succ_mul _ _
      have kpi : pos * st.da.tp_size ≤ i * st.da.tp_size := Nat.mul_le_mul_right _ hi1
      rw [darray_at_ret_of_lt w _ i (by show i < st.da.elem_amount - 1; omega)
        (by show i * st.da.tp_size < 2 ^ w; omega)]
      rw [darray_at_ret_of_lt w st (i + 1) (by omega) (by omega)]
      simp only [memmove]
      rw [if_pos ⟨by omega, by omega⟩]
      congr 1
      omega

/-- C6, at a concrete input: erasing position 1 of `[1, 2, 3]` leaves two elements, and
the element at index 1 is the one that was at index 2. -/
theorem darray_erase_shift_witness :
    1 < three_elem_state.da.elem_amount ∧
    three_elem_state.da.elem_amount * three_elem_state.da.tp_size < 2 ^ 64 ∧
    (darray_erase 64 three_elem_state 1).st.da.elem_amount =
      three_elem_state.da.elem_amount - 1 ∧
    (∀ b, b < three_elem_state.da.tp_size →
      (darray_erase 64 three_elem_state 1).st.mem
          ((darray_at 64 (darray_erase 64 three_elem_state 1).st 1).ret + b) =
        three_elem_state.mem ((darray_at 64 three_elem_state (1 + 1)).ret + b)) ∧
    (darray_erase 64 three_elem_state 1).st.mem
      ((darray_at 64 (darray_erase 64 three_elem_state 1).st 1).ret) = 3 :=
  ⟨by decide, by decide,
    (darray_erase_shift 64 three_elem_state 1 (by decide) (by decide)).2.1,
    fun b hb =>
      ((darray_erase_shift 64 three_elem_state 1 (by decide) (by decide)).2.2.2.2.2.2 1 b
        hb).2 (by decide) (by decide),
    by decide⟩

/-- C7. For an array with `size <= capacity` and `stride > 0` whose grown byte size is
representable in `size_t`, a successful `insert(v, p)` has `p <= size`, increments the
size by one, leaves the element at every index `i < p` unchanged, and makes the element
at every index `i` with `p < i <= old size` equal to the element that was at index
`i - 1`. Elements are read through `darray_at`. -/
theorem darray_insert_shift (w : Nat) (o : alloc_outcome) (st : State) (v : Nat → Nat)
    (p : Nat) (hinv : st.da.elem_amount ≤ st.da.alloc_size)
    (hfit : (st.da.alloc_size + st.da.alloc_size / 2 + 1) * st.da.tp_size < 2 ^ w)
    (htp : st.da.tp_size ≠ 0)
    (h : (darray_insert w o st v p).ret ≠ NULL) :
    p ≤ st.da.elem_amount ∧
    (darray_insert w o st v p).st.da.elem_amount = st.da.elem_amount + 1 ∧
    (darray_insert w o st v p).st.da.tp_size = st.da.tp_size ∧
    ∀ i b, b < st.da.tp_size →
      (i < p →
        (darray_insert w o st v p).st.mem
            ((darray_at w (darray_insert w o st v p).st i).ret + b) =
          st.mem ((darray_at w st i).ret + b)) ∧
      (p < i → i ≤ st.da.elem_amount →
        (darray_insert w o st v p).st.mem
            ((darray_at w (darray_insert w o st v p).st i).ret + b) =
          st.mem ((darray_at w st (i - 1)).ret + b)) :=
  darray_insert_effect w o st v p hinv hfit htp h

/-- C7, at a concrete input: inserting 9 at position 1 of `[1, 2, 3]` gives four
elements; index 0 is unchanged and index 2 holds what index 1 held. -/
theorem darray_insert_shift_witness :
    three_elem_state.da.elem_amount ≤ three_elem_state.da.alloc_size ∧
    (three_elem_state.da.alloc_size + three_elem_state.da.alloc_size / 2 + 1) *
      three_elem_state.da.tp_size < 2 ^ 64 ∧
    (darray_insert 64 (alloc_ok 8192) three_elem_state (int_bytes 9) 1).ret ≠ NULL ∧
    (darray_insert 64 (alloc_ok 8192) three_elem_state (int_bytes 9) 1).st.da.elem_amount =
      three_elem_state.da.elem_amount + 1 ∧
    (∀ b, b < three_elem_state.da.tp_size →
      (darray_insert 64 (alloc_ok 8192) three_elem_state (int_bytes 9) 1).st.mem
          ((darray_at 64 (darray_insert 64 (alloc_ok 8192) three_elem_state (int_bytes 9) 1).st
            2).ret + b) =
        three_elem_state.mem ((darray_at 64 three_elem_state (2 - 1)).ret + b)) ∧
    (darray_insert 64 (alloc_ok 8192) three_elem_state (int_bytes 9) 1).st.mem
      ((darray_at 64 (darray_insert 64 (alloc_ok 8192) three_elem_state (int_bytes 9) 1).st
        2).ret) = 2 :=
  ⟨by decide, by decide, by decide,
    (darray_insert_shift 64 (alloc_ok 8192) three_elem_state (int_bytes 9) 1 (by decide)
      (by decide) (by decide) (by decide)).2.1,
    fun b hb =>
      ((darray_insert_shift 64 (alloc_ok 8192) three_elem_state (int_bytes 9) 1 (by decide)
        (by decide) (by decide) (by decide)).2.2.2 2 b hb).2 (by decide) (by decide),
    by decide⟩

/-- C8. Whenever `pos > size`, `insert(v, pos)` returns null with `errno = ERANGE` and
leaves the control block and the memory as they are. And when the reallocation does not
fail (on an array with `stride > 0`, a buffer whenever the capacity is not zero, and
`size + 1` representable), `insert` returns null only if `pos > size`. -/
theorem darray_insert_range (w : Nat) (o : alloc_outcome) (st : State) (v : Nat → Nat)
    (pos : Nat) :
    (st.da.elem_amount < pos →
      (darray_insert w o st v pos).ret = NULL ∧
      (darray_insert w o st v pos).st.errno = ERANGE ∧
      (darray_insert w o st v pos).st.da = st.da ∧
      (darray_insert w o st v pos).st.mem = st.mem) ∧
    (o.ptr ≠ NULL → st.da.tp_size ≠ 0 → (st.da.alloc_size ≠ 0 → st.da.data ≠ NULL) →
      st.da.elem_amount + 1 < 2 ^ w →
      (darray_insert w o st v pos).ret = NULL → st.da.elem_amount < pos) := by
  constructor
  · intro h
    have h1 : pos > st.da.elem_amount := h
    simp [darray_insert, h1]
  · intro ho htp hdata he hret
    by_contra hnot
    exact darray_insert_succeeds w o st v pos (by omega) ho htp hdata he hret

/-- C8, at the inputs of the edge-case test: with size 1, position 3 is rejected with
`ERANGE`; with size 0, position 0 succeeds; with size 1, position 1 succeeds. -/
theorem darray_insert_range_witness :
    one_elem_state.da.elem_amount = 1 ∧
    (darray_insert 64 (alloc_ok 8192) one_elem_state (int_bytes 42) 3).ret = NULL ∧
    (darray_insert 64 (alloc_ok 8192) one_elem_state (int_bytes 42) 3).st.errno = ERANGE ∧
    (darray_insert 64 (alloc_ok 4096) (fresh_state 4 (fun _ => 0) 0) (int_bytes 42) 0).ret ≠
      NULL ∧
    (darray_insert 64 (alloc_ok 8192) one_elem_state (int_bytes 42) 1).ret ≠ NULL ∧
    (darray_insert 64 (alloc_ok 8192) one_elem_state (int_bytes 42) 1).st.da.elem_amount = 2 :=
  ⟨by decide,
    ((darray_insert_range 64 (alloc_ok 8192) one_elem_state (int_bytes 42) 3).1
      (by decide)).1,
    ((darray_insert_range 64 (alloc_ok 8192) one_elem_state (int_bytes 42) 3).1
      (by decide)).2.1,
    by decide, by decide, by decide⟩

/-- C9. `at(i)` with `i >= size` returns null and stores `ERANGE` in `errno`; with
`i < size` it stores nothing and returns `data + (i * stride mod 2 ^ w)`, which is not
null when the buffer is present, and which is `data + i * stride`, the start of a slot
lying inside the `capacity * stride` bytes of the buffer, when `size <= capacity` and
the byte size of the buffer is representable. In every case the control block and the
memory are unchanged. -/
theorem darray_at_spec (w : Nat) (st : State) (i : Nat) :
    (st.da.elem_amount ≤ i →
      (darray_at w st i).ret = NULL ∧ (darray_at w st i).st.errno = ERANGE) ∧
    (i < st.da.elem_amount →
      (darray_at w st i).ret = st.da.data + wrap w (i * st.da.tp_size) ∧
      (darray_at w st i).st = st) ∧
    (i < st.da.elem_amount → st.da.data ≠ NULL → (darray_at w st i).ret ≠ NULL) ∧
    (i < st.da.elem_amount → st.da.elem_amount ≤ st.da.alloc_size →
      st.da.alloc_size * st.da.tp_size < 2 ^ w →
      (darray_at w st i).ret = st.da.data + i * st.da.tp_size ∧
      i * st.da.tp_size + st.da.tp_size ≤ st.da.alloc_size * st.da.tp_size) ∧
    (darray_at w st i).st.da = st.da ∧ (darray_at w st i).st.mem = st.mem := by
  refine ⟨?_, ?_, ?_, ?_, ?_, ?_⟩
  · intro h
    simp [darray_at, h]
  · intro h
    have h3 : ¬ i ≥ st.da.elem_amount := by omega
    simp [darray_at, h3]
  · intro h hd
    have h3 : ¬ i ≥ st.da.elem_amount := by omega
    simp only [darray_at, h3, if_false, NULL] at *
    omega
  · intro h hle hfit
    have h3 : ¬ i ≥ st.da.elem_amount := by omega
    have hs := slot_le st.da.tp_size h
    have hs2 : st.da.elem_amount * st.da.tp_size ≤ st.da.alloc_size * st.da.tp_size :=
      Nat.mul_le_mul_right _ hle
    have h4 : i * st.da.tp_size < 2 ^ w := by omega
    simp only [darray_at, h3, if_false, wrap_of_lt h4, true_and]
    omega
  · unfold darray_at; split <;> rfl
  · unfold darray_at; split <;> rfl

/-- C9, at the input of the error-handling test and on `[1, 2, 3]`: `at(10)` on a fresh
array fails with `ERANGE`; `at(2)` on `[1, 2, 3]` returns the address 8 bytes into the
buffer, where the value 3 is stored, and `at(3)` fails. -/
theorem darray_at_spec_witness :
    (darray_at 64 (fresh_state 4 (fun _ => 0) 0) 10).ret = NULL ∧
    (darray_at 64 (fresh_state 4 (fun _ => 0) 0) 10).st.errno = ERANGE ∧
    (darray_at 64 three_elem_state 2).ret = three_elem_state.da.data + 2 * 4 ∧
    three_elem_state.mem (darray_at 64 three_elem_state 2).ret = 3 ∧
    (darray_at 64 three_elem_state 3).ret = NULL :=
  ⟨((darray_at_spec 64 (fresh_state 4 (fun _ => 0) 0) 10).1 (by decide)).1,
    ((darray_at_spec 64 (fresh_state 4 (fun _ => 0) 0) 10).1 (by decide)).2,
    ((darray_at_spec 64 three_elem_state 2).2.2.2.1 (by decide) (by decide) (by decide)).1,
    by decide,
    ((darray_at_spec 64 three_elem_state 3).1 (by decide)).1⟩

/-- C10. Construction with element stride 0 returns no array, stores `EINVAL` in `errno`
and makes no call to the allocate entry (whatever that entry would answer, the result
is the same). Construction with stride `s > 0` returns no array exactly when the
allocate entry returns null, and otherwise the array has stride `s`, capacity 0, size 0
and no buffer. -/
theorem darray_new_with_allocator_spec (s : Nat) (m m2 : alloc_outcome) (errno : Nat) :
    (darray_new_with_allocator 0 m errno).da = none ∧
    (darray_new_with_allocator 0 m errno).errno = EINVAL ∧
    (darray_new_with_allocator 0 m errno).malloc_calls = 0 ∧
    darray_new_with_allocator 0 m errno = darray_new_with_allocator 0 m2 errno ∧
    (0 < s →
      ((darray_new_with_allocator s m errno).da = none ↔ m.ptr = NULL) ∧
      (m.ptr ≠ NULL →
        (darray_new_with_allocator s m errno).da =
          some { data := NULL, tp_size := s, alloc_size := 0, elem_amount := 0 })) := by
  refine ⟨rfl, rfl, rfl, rfl, ?_⟩
  intro hs
  have hs0 : s ≠ 0 := Nat.pos_iff_ne_zero.mp hs
  unfold darray_new_with_allocator
  by_cases hm : m.ptr = NULL
  · simp [hs0, hm]
  · simp [hs0, hm]

/-- C10, at the inputs of the tests: stride 0 is rejected with `EINVAL`; stride 4 with an
allocator that fails gives no array; stride 4 with one that succeeds gives the control
block of `fresh_state`. -/
theorem darray_new_with_allocator_spec_witness :
    (darray_new_with_allocator 0 (alloc_ok 4096) 0).da = none ∧
    (darray_new_with_allocator 0 (alloc_ok 4096) 0).errno = EINVAL ∧
    (darray_new_with_allocator 4 { ptr := NULL, err := none, fresh := fun _ => 0 } 0).da =
      none ∧
    (darray_new_with_allocator 4 (alloc_ok 4096) 0).da =
      some (fresh_state 4 (fun _ => 0) 0).da :=
  ⟨(darray_new_with_allocator_spec 4 (alloc_ok 4096) (alloc_ok 4096) 0).1,
    (darray_new_with_allocator_spec 4 (alloc_ok 4096) (alloc_ok 4096) 0).2.1,
    ((darray_new_with_allocator_spec 4 { ptr := NULL, err := none, fresh := fun _ => 0 }
      (alloc_ok 4096) 0).2.2.2.2 (by decide)).1.2 rfl,
    ((darray_new_with_allocator_spec 4 (alloc_ok 4096) (alloc_ok 4096) 0).2.2.2.2
      (by decide)).2 (by decide)⟩

/-! ## Lemmas on reserve, resize and erase -/

/-- Bytes of the stored elements survive `darray_reserve`. -/
theorem darray_reserve_preserves (w : Nat) (o : alloc_outcome) (st : State) (n : Nat)
    (hinv : st.da.elem_amount ≤ st.da.alloc_size)
    (hfn : st.da.alloc_size < n → n * st.da.tp_size < 2 ^ w) (off : Nat)
    (hoff : off < st.da.elem_amount * st.da.tp_size) :
    (darray_reserve w o st n).st.mem ((darray_reserve w o st n).st.da.data + off) =
      st.mem (st.da.data + off) := by
  have hea : st.da.elem_amount * st.da.tp_size ≤ st.da.alloc_size * st.da.tp_size :=
    Nat.mul_le_mul_right _ hinv
  rcases darray_reserve_cases w o st n with hA | hB | hC
  · rw [hA.2]
  · obtain ⟨_, _, _, hda, hmem⟩ := hB
    rw [hda, hmem]
  · obtain ⟨hlt, _, _, heq⟩ := hC
    have hn := hfn hlt
    have hm : st.da.alloc_size * st.da.tp_size ≤ n * st.da.tp_size :=
      Nat.mul_le_mul_right _ (by omega)
    rw [heq]
    simp only [realloc_mem]
    rw [wrap_of_lt hn, wrap_of_lt (by omega)]
    rw [if_pos ⟨by omega, by omega⟩, if_pos (by omega)]
    congr 1
    omega

/-- A reservation that returns null leaves the control block and the memory alone. -/
theorem darray_reserve_null (w : Nat) (o : alloc_outcome) (st : State) (n : Nat)
    (h : (darray_reserve w o st n).ret = NULL) :
    (darray_reserve w o st n).st.da = st.da ∧ (darray_reserve w o st n).st.mem = st.mem := by
  rcases darray_reserve_cases w o st n with hA | hB | hC
  · rw [hA.2]; exact ⟨rfl, rfl⟩
  · exact ⟨hB.2.2.2.1, hB.2.2.2.2⟩
  · obtain ⟨_, _, ho, heq⟩ := hC
    rw [heq] at h
    exact absurd h ho

/-- A reservation that does not return null returns the buffer of a capacity of at
least `n`. -/
theorem darray_reserve_ok (w : Nat) (o : alloc_outcome) (st : State) (n : Nat)
    (h : (darray_reserve w o st n).ret ≠ NULL) :
    (darray_reserve w o st n).ret = (darray_reserve w o st n).st.da.data ∧
    n ≤ (darray_reserve w o st n).st.da.alloc_size ∧
    st.da.alloc_size ≤ (darray_reserve w o st n).st.da.alloc_size := by
  rcases darray_reserve_cases w o st n with hA | hB | hC
  · obtain ⟨hle, heq⟩ := hA
    rw [heq]; exact ⟨rfl, hle, Nat.le_refl _⟩
  · exact absurd hB.2.2.1 h
  · obtain ⟨hlt, _, _, heq⟩ := hC
    rw [heq]; exact ⟨rfl, Nat.le_refl _, Nat.le_of_lt hlt⟩

/-- The result of `darray_resize` when the reservation does not return null. -/
theorem darray_resize_eq (w : Nat) (o : alloc_outcome) (st : State) (n : Nat)
    (h : (darray_reserve w o st n).ret ≠ NULL) :
    darray_resize w o st n =
      { ret := (darray_reserve w o st n).ret,
        st :=
          { da := { (darray_reserve w o st n).st.da with elem_amount := n },
            mem :=
              if n > st.da.elem_amount then
                memset (darray_reserve w o st n).st.mem
                  ((darray_reserve w o st n).st.da.data +
                    wrap w (st.da.elem_amount * (darray_reserve w o st n).st.da.tp_size)) 0
                  (wrap w ((n - st.da.elem_amount) * (darray_reserve w o st n).st.da.tp_size))
              else (darray_reserve w o st n).st.mem,
            errno := (darray_reserve w o st n).st.errno } } := by
  unfold darray_resize
  simp only [h, if_false]

/-- A resize returns null exactly when its reservation does. -/
theorem darray_resize_null (w : Nat) (o : alloc_outcome) (st : State) (n : Nat)
    (h : (darray_resize w o st n).ret = NULL) :
    (darray_reserve w o st n).ret = NULL ∧
      (darray_resize w o st n).st = (darray_reserve w o st n).st := by
  by_cases hr : (darray_reserve w o st n).ret = NULL
  · refine ⟨hr, ?_⟩
    unfold darray_resize
    simp only [hr, if_true]
  · rw [darray_resize_eq w o st n hr] at h
    exact absurd h hr

/-- The growth step of `darray_insert`, when its reservation does not fail, ends with a
buffer that is present. -/
theorem insert_base_data_ne_null (w : Nat) (o : alloc_outcome) (st : State)
    (hok : st.da.elem_amount ≥ st.da.alloc_size →
      (darray_reserve w o st (darray_grow_size w st.da)).ret ≠ NULL)
    (hbuf : st.da.alloc_size ≠ 0 → st.da.data ≠ NULL) :
    (insert_base w o st).da.data ≠ NULL ∧
    st.da.alloc_size ≤ (insert_base w o st).da.alloc_size ∧
    (insert_base w o st).da.alloc_size ≠ 0 := by
  unfold insert_base
  by_cases hfull : st.da.elem_amount ≥ st.da.alloc_size
  · rw [if_pos hfull]
    obtain ⟨h1, h2, h3⟩ := darray_reserve_ok w o st _ (hok hfull)
    refine ⟨by rw [← h1]; exact hok hfull, h3, ?_⟩
    intro h0
    rw [h0] at h2 h3
    have ha : st.da.alloc_size = 0 := by omega
    simp [darray_grow_size, ha, DARRAY_INITIAL_SIZE] at h2
  · rw [if_neg hfull]
    exact ⟨hbuf (by omega), Nat.le_refl _, by omega⟩

/-- When `size + 1` is not representable, the store step of an append returns null. -/
theorem darray_insert_store_wrap (w : Nat) (st : State) (v : Nat → Nat)
    (he : st.da.elem_amount + 1 = 2 ^ w) :
    (darray_insert_store w st v st.da.elem_amount).ret = NULL := by
  have hw : wrap w (st.da.elem_amount + 1) = 0 := by
    unfold wrap; rw [he]; exact Nat.mod_self _
  unfold darray_insert_store
  rw [if_pos rfl]
  dsimp only
  rw [hw]
  simp [darray_at]

/-- The outcome of `darray_erase` when the guard rejects the position. -/
theorem darray_erase_rejected (w : Nat) (st : State) (pos : Nat)
    (h : pos > st.da.elem_amount ∨ st.da.elem_amount = 0) :
    darray_erase w st pos = { ret := NULL, st := { st with errno := ERANGE } } := by
  unfold darray_erase
  rw [if_pos h]

/-- Whatever `darray_erase` does, it returns null or the buffer, and a call that is not
rejected returns the buffer. -/
theorem darray_erase_ret (w : Nat) (st : State) (pos : Nat)
    (h : ¬ (pos > st.da.elem_amount ∨ st.da.elem_amount = 0)) :
    (darray_erase w st pos).ret = st.da.data := by
  unfold darray_erase
  rw [if_neg h]
  split
  · rfl
  · split <;> rfl

/-- The function `darray_reserve` keeps a non-empty array at a non-zero capacity. -/
theorem darray_reserve_size_inv (w : Nat) (o : alloc_outcome) (st : State) (n : Nat)
    (h : size_inv st) : size_inv (darray_reserve w o st n).st := by
  unfold size_inv at h ⊢
  rcases darray_reserve_cases w o st n with hA | hB | hC
  · rw [hA.2]; exact h
  · rw [hB.2.2.2.1]; exact h
  · obtain ⟨hlt, _, _, heq⟩ := hC
    rw [heq]
    intro _
    show n ≠ 0
    omega

/-- The function `darray_resize` keeps a non-empty array at a non-zero capacity. -/
theorem darray_resize_size_inv (w : Nat) (o : alloc_outcome) (st : State) (n : Nat)
    (h : size_inv st) : size_inv (darray_resize w o st n).st := by
  by_cases hr : (darray_reserve w o st n).ret = NULL
  · have heq : (darray_resize w o st n).st = (darray_reserve w o st n).st := by
      unfold darray_resize
      simp only [hr, if_true]
    rw [heq]
    exact darray_reserve_size_inv w o st n h
  · obtain ⟨_, hn, _⟩ := darray_reserve_ok w o st n hr
    rw [darray_resize_eq w o st n hr]
    unfold size_inv
    intro h0
    have h1 : n ≠ 0 := h0
    show (darray_reserve w o st n).st.da.alloc_size ≠ 0
    omega

/-- The function `darray_insert` keeps a non-empty array at a non-zero capacity. -/
theorem darray_insert_size_inv (w : Nat) (o : alloc_outcome) (st : State) (v : Nat → Nat)
    (pos : Nat) (h : size_inv st) : size_inv (darray_insert w o st v pos).st := by
  by_cases h1 : pos > st.da.elem_amount
  · have heq : darray_insert w o st v pos =
        { ret := NULL, st := { st with errno := ERANGE } } := by
      unfold darray_insert
      rw [if_pos h1]
    rw [heq]
    exact h
  · by_cases h2 : st.da.elem_amount ≥ st.da.alloc_size
    · by_cases h3 : (darray_reserve w o st (darray_grow_size w st.da)).ret = NULL
      · have heq : darray_insert w o st v pos =
            { ret := NULL, st := (darray_reserve w o st (darray_grow_size w st.da)).st } := by
          unfold darray_insert
          rw [if_neg h1, if_pos h2]
          simp only [h3, if_true]
        rw [heq]
        exact darray_reserve_size_inv w o st _ h
      · have heq : darray_insert w o st v pos =
            darray_insert_store w (darray_reserve w o st (darray_grow_size w st.da)).st v pos := by
          unfold darray_insert
          rw [if_neg h1, if_pos h2]
          simp only [h3, if_false]
        obtain ⟨_, hn, hm⟩ := darray_reserve_ok w o st _ h3
        obtain ⟨ha, _, _⟩ := darray_insert_store_da w
          (darray_reserve w o st (darray_grow_size w st.da)).st v pos
        rw [heq]
        unfold size_inv
        intro _
        rw [ha]
        intro h0
        rw [h0] at hn hm
        have hz : st.da.alloc_size = 0 := by omega
        simp [darray_grow_size, hz, DARRAY_INITIAL_SIZE] at hn
    · have heq : darray_insert w o st v pos = darray_insert_store w st v pos := by
        unfold darray_insert
        rw [if_neg h1, if_neg h2]
      obtain ⟨ha, _, _⟩ := darray_insert_store_da w st v pos
      rw [heq]
      unfold size_inv
      intro _
      rw [ha]
      omega

/-- The function `darray_erase` keeps a non-empty array at a non-zero capacity. -/
theorem darray_erase_size_inv (w : Nat) (st : State) (pos : Nat) (h : size_inv st) :
    size_inv (darray_erase w st pos).st := by
  unfold size_inv at h ⊢
  unfold darray_erase
  split
  · exact h
  · split
    · intro h0
      apply h
      have : st.da.elem_amount - 1 ≠ 0 := h0
      omega
    · split
      · intro h0
        apply h
        have : st.da.elem_amount - 1 ≠ 0 := h0
        omega
      · exact h

/-- Every operation keeps a non-empty array at a non-zero capacity. -/
theorem step_size_inv (w : Nat) (st : State) (op : Op) (h : size_inv st) :
    size_inv (step w st op) := by
  cases op with
  | reserve n o => exact darray_reserve_size_inv w o st n h
  | resize n o => exact darray_resize_size_inv w o st n h
  | clear =>
    unfold size_inv
    intro h0
    exact absurd rfl h0
  | insert v pos o => exact darray_insert_size_inv w o st v pos h
  | erase pos => exact darray_erase_size_inv w st pos h
  | push_back v o => exact darray_insert_size_inv w o st v _ h
  | pop_back => exact darray_erase_size_inv w st _ h
  | push_front v o => exact darray_insert_size_inv w o st v 0 h
  | pop_front => exact darray_erase_size_inv w st 0 h

/-- After any sequence of operations on a fresh array, the buffer is present whenever
the capacity or the size is not zero. -/
theorem run_buffer_present (w : Nat) (ops : List Op) (s : Nat) (mem : Nat → Nat)
    (errno : Nat) :
    ((run w (fresh_state s mem errno) ops).da.alloc_size ≠ 0 →
      (run w (fresh_state s mem errno) ops).da.data ≠ NULL) ∧
    ((run w (fresh_state s mem errno) ops).da.elem_amount ≠ 0 →
      (run w (fresh_state s mem errno) ops).da.data ≠ NULL) := by
  have hgen : ∀ (l : List Op) (st : State), buffer_inv st → size_inv st →
      buffer_inv (run w st l) ∧ size_inv (run w st l) := by
    intro l
    induction l with
    | nil => intro st hb hs; exact ⟨hb, hs⟩
    | cons op rest ih =>
      intro st hb hs
      exact ih (step w st op) (step_buffer_inv w st op hb) (step_size_inv w st op hs)
  have hs0 : size_inv (fresh_state s mem errno) := by
    unfold size_inv fresh_state
    intro h0
    exact absurd rfl h0
  obtain ⟨hb, hs⟩ := hgen ops _ (fresh_state_buffer_inv s mem errno) hs0
  unfold buffer_inv at hb
  unfold size_inv at hs
  constructor
  · intro h0 hd
    exact h0 (hb.2 hd)
  · intro h0 hd
    exact hs h0 (hb.2 hd)

/-- In `size_t`, `(e + 1) - 1` is `e` for a size `e` whose successor is representable. -/
theorem wrap_succ_pred {w e : Nat} (h : e + 1 < 2 ^ w) : wrap w (e + 1 + 2 ^ w - 1) = e := by
  have h1 : e + 1 + 2 ^ w - 1 = e + 2 ^ w := by omega
  rw [h1]
  unfold wrap
  rw [Nat.add_mod_right]
  exact Nat.mod_eq_of_lt (by omega)

/-- In `size_t`, `0 - 1` is `2 ^ w - 1`. -/
theorem wrap_zero_pred (w : Nat) : wrap w (0 + 2 ^ w - 1) = 2 ^ w - 1 := by
  have hp : 0 < 2 ^ w := Nat.two_pow_pos w
  unfold wrap
  rw [Nat.zero_add]
  exact Nat.mod_eq_of_lt (by omega)

/-! ## Lemmas on the linked list -/

/-- The forward loop of `list_at` reaches the `n`-th successor when every hop exists and
jumps to `err` otherwise. -/
theorem list_at_fwd_eq (st : ListState) (n cur : Nat) :
    ((∀ j, j < n → list_next st ((list_next st)^[j] cur) ≠ NULL) →
      list_at_fwd st.heap n cur = some ((list_next st)^[n] cur)) ∧
    ((∃ j, j < n ∧ list_next st ((list_next st)^[j] cur) = NULL) →
      list_at_fwd st.heap n cur = none) := by
  induction n generalizing cur with
  | zero =>
    constructor
    · intro _; rfl
    · rintro ⟨j, hj, _⟩; omega
  | succ m ih =>
    constructor
    · intro hall
      have h0 : (st.heap cur).next ≠ NULL := hall 0 (by omega)
      simp only [list_at_fwd, h0, if_false]
      rw [(ih (st.heap cur).next).1]
      · rw [Function.iterate_succ_apply]; rfl
      · intro j hj
        have := hall (j + 1) (by omega)
        rw [Function.iterate_succ_apply] at this
        exact this
    · rintro ⟨j, hj, hnull⟩
      by_cases h0 : (st.heap cur).next = NULL
      · simp only [list_at_fwd, h0, if_true]
      · simp only [list_at_fwd, h0, if_false]
        apply (ih (st.heap cur).next).2
        cases j with
        | zero => exact absurd hnull h0
        | succ i =>
          refine ⟨i, by omega, ?_⟩
          rw [Function.iterate_succ_apply] at hnull
          exact hnull

/-- The backward loop of `list_at` reaches the `n`-th predecessor when every hop exists
and jumps to `err` otherwise. -/
theorem list_at_back_eq (st : ListState) (n cur : Nat) :
    ((∀ j, j < n → list_prev st ((list_prev st)^[j] cur) ≠ NULL) →
      list_at_back st.heap n cur = some ((list_prev st)^[n] cur)) ∧
    ((∃ j, j < n ∧ list_prev st ((list_prev st)^[j] cur) = NULL) →
      list_at_back st.heap n cur = none) := by
  induction n generalizing cur with
  | zero =>
    constructor
    · intro _; rfl
    · rintro ⟨j, hj, _⟩; omega
  | succ m ih =>
    constructor
    · intro hall
      have h0 : (st.heap cur).prev ≠ NULL := hall 0 (by omega)
      simp only [list_at_back, h0, if_false]
      rw [(ih (st.heap cur).prev).1]
      · rw [Function.iterate_succ_apply]; rfl
      · intro j hj
        have := hall (j + 1) (by omega)
        rw [Function.iterate_succ_apply] at this
        exact this
    · rintro ⟨j, hj, hnull⟩
      by_cases h0 : (st.heap cur).prev = NULL
      · simp only [list_at_back, h0, if_true]
      · simp only [list_at_back, h0, if_false]
        apply (ih (st.heap cur).prev).2
        cases j with
        | zero => exact absurd hnull h0
        | succ i =>
          refine ⟨i, by omega, ?_⟩
          rw [Function.iterate_succ_apply] at hnull
          exact hnull

/-- The function `list_at` on a non-negative index runs the forward loop. -/
theorem list_at_nonneg (st : ListState) (node k : Nat) :
    list_at st node (k : Int) =
      match list_at_fwd st.heap k node with
      | some current => { ret := current, st := st }
      | none => { ret := NULL, st := { st with errno := ERANGE } } := by
  unfold list_at
  have h : ¬ ((k : Int) < 0) := by omega
  rw [if_neg h, Int.toNat_ofNat]

/-- The function `list_at` on a negative index `-k` runs the backward loop `k` times. -/
theorem list_at_neg (st : ListState) (node k : Nat) (hk : 0 < k) :
    list_at st node (-(k : Int)) =
      match list_at_back st.heap k node with
      | some current => { ret := current, st := st }
      | none => { ret := NULL, st := { st with errno := ERANGE } } := by
  unfold list_at
  have h : -(k : Int) < 0 := by omega
  rw [if_pos h, Int.natAbs_neg, Int.natAbs_ofNat]

/-- Closed form of `list_append` when the allocation succeeds at an address other than
the handle and the handle is the tail of its chain. -/
theorem list_append_tail (fuel : Nat) (m : alloc_outcome) (st : ListState) (list data : Nat)
    (hm : m.ptr ≠ NULL) (hne : m.ptr ≠ list) (htail : (st.heap list).next = NULL) :
    ∃ s, list_append (fuel + 1) m st list data = some { ret := m.ptr, st := s } ∧
      s.heap m.ptr =
        { prev := list, next := NULL, data := data, malloc_fn := (st.heap list).malloc_fn,
          free_fn := (st.heap list).free_fn } ∧
      s.heap list = { (st.heap list) with next := m.ptr } ∧
      (∀ a, a ≠ m.ptr → a ≠ list → s.heap a = st.heap a) ∧
      s.errno = m.err.getD st.errno ∧
      s.live = fun a => if a = m.ptr then true else st.live a := by
  have hne2 : list ≠ m.ptr := fun h => hne h.symm
  have hstep : list_append (fuel + 1) m st list data =
      some
        { ret := m.ptr,
          st :=
            { heap :=
                heap_set
                  (heap_set
                    (heap_set st.heap m.ptr
                      { prev := NULL, next := NULL, data := NULL,
                        malloc_fn := (st.heap list).malloc_fn,
                        free_fn := (st.heap list).free_fn })
                    m.ptr
                    { prev := list, next := NULL, data := data,
                      malloc_fn := (st.heap list).malloc_fn,
                      free_fn := (st.heap list).free_fn })
                  list { (st.heap list) with next := m.ptr },
              live := fun a => if a = m.ptr then true else st.live a,
              errno := m.err.getD st.errno } } := by
    simp [list_append, list_new_with_allocator, hm, LIST_TO_TAIL, heap_set, hne2, htail]
  refine ⟨_, hstep, ?_, ?_, ?_, rfl, rfl⟩
  · simp [heap_set, hne]
  · simp [heap_set]
  · intro a h1 h2
    simp [heap_set, h1, h2]

/-- Closed form of `list_prepend` when the allocation succeeds at an address other than
the handle and the handle is the head of its chain. -/
theorem list_prepend_head (fuel : Nat) (m : alloc_outcome) (st : ListState) (list data : Nat)
    (hm : m.ptr ≠ NULL) (hne : m.ptr ≠ list) (hhead : (st.heap list).prev = NULL) :
    ∃ s, list_prepend (fuel + 1) m st list data = some { ret := m.ptr, st := s } ∧
      s.heap m.ptr =
        { prev := NULL, next := list, data := data, malloc_fn := (st.heap list).malloc_fn,
          free_fn := (st.heap list).free_fn } ∧
      s.heap list = { (st.heap list) with prev := m.ptr } ∧
      (∀ a, a ≠ m.ptr → a ≠ list → s.heap a = st.heap a) ∧
      s.errno = m.err.getD st.errno ∧
      s.live = fun a => if a = m.ptr then true else st.live a := by
  have hne2 : list ≠ m.ptr := fun h => hne h.symm
  have hstep : list_prepend (fuel + 1) m st list data =
      some
        { ret := m.ptr,
          st :=
            { heap :=
                heap_set
                  (heap_set
                    (heap_set st.heap m.ptr
                      { prev := NULL, next := NULL, data := NULL,
                        malloc_fn := (st.heap list).malloc_fn,
                        free_fn := (st.heap list).free_fn })
                    m.ptr
                    { prev := NULL, next := list, data := data,
                      malloc_fn := (st.heap list).malloc_fn,
                      free_fn := (st.heap list).free_fn })
                  list { (st.heap list) with prev := m.ptr },
              live := fun a => if a = m.ptr then true else st.live a,
              errno := m.err.getD st.errno } } := by
    simp [list_prepend, list_new_with_allocator, hm, LIST_TO_HEAD, heap_set, hne2, hhead]
  refine ⟨_, hstep, ?_, ?_, ?_, rfl, rfl⟩
  · simp [heap_set, hne]
  · simp [heap_set]
  · intro a h1 h2
    simp [heap_set, h1, h2]

/-! ## The claims on reserve, resize, failure and the pop operations -/

/-- C11 (failing input). `reserve(0)` on a freshly constructed array returns null through
the early return `alloc_size >= size` and leaves `errno` as it was, whatever it was: the
branch that stores `EINVAL` is never reached. With `errno = 0` before the call (element
size 4), `errno` is not `EINVAL` afterwards. -/
theorem darray_reserve_zero_fresh (w : Nat) (o : alloc_outcome) (s : Nat) (mem : Nat → Nat)
    (errno : Nat) :
    (darray_reserve w o (fresh_state s mem errno) 0).ret = NULL ∧
    (darray_reserve w o (fresh_state s mem errno) 0).st.errno = errno ∧
    (darray_reserve 64 (alloc_ok 4096) (fresh_state 4 (fun _ => 0) 0) 0).ret = NULL ∧
    (darray_reserve 64 (alloc_ok 4096) (fresh_state 4 (fun _ => 0) 0) 0).st.errno ≠ EINVAL := by
  refine ⟨rfl, rfl, by decide, by decide⟩

/-- C12 (as amended). If `capacity >= n`, `reserve(n)` returns the current buffer and
changes nothing. If `capacity < n` and the call does not return null (the reallocation
succeeded), then afterwards the capacity is `n`, size and stride are unchanged and the
returned pointer is the new buffer; when moreover `n * stride` is representable in
`size_t` and `size <= capacity`, every byte of every element at an index `i < size` is
unchanged. -/
theorem darray_reserve_spec (w : Nat) (o : alloc_outcome) (st : State) (n : Nat) :
    (n ≤ st.da.alloc_size → darray_reserve w o st n = { ret := st.da.data, st := st }) ∧
    (st.da.alloc_size < n → (darray_reserve w o st n).ret ≠ NULL →
      (darray_reserve w o st n).st.da.alloc_size = n ∧
      (darray_reserve w o st n).st.da.elem_amount = st.da.elem_amount ∧
      (darray_reserve w o st n).st.da.tp_size = st.da.tp_size ∧
      (darray_reserve w o st n).ret = (darray_reserve w o st n).st.da.data ∧
      (darray_reserve w o st n).ret = o.ptr ∧
      (st.da.elem_amount ≤ st.da.alloc_size → n * st.da.tp_size < 2 ^ w →
        ∀ i b, i < st.da.elem_amount → b < st.da.tp_size →
          (darray_reserve w o st n).st.mem ((darray_at w (darray_reserve w o st n).st i).ret + b) =
            st.mem ((darray_at w st i).ret + b))) := by
  constructor
  · intro h
    rcases darray_reserve_cases w o st n with hA | hB | hC
    · exact hA.2
    · omega
    · omega
  · intro hlt hret
    rcases darray_reserve_cases w o st n with hA | hB | hC
    · omega
    · exact absurd hB.2.2.1 hret
    · obtain ⟨_, _, _, heq⟩ := hC
      refine ⟨by rw [heq], by rw [heq], by rw [heq], by rw [heq], by rw [heq], ?_⟩
      intro hinv hfn i b hi hb
      have hpres := darray_reserve_preserves w o st n hinv (fun _ => hfn)
        (i * st.da.tp_size + b) (by have := slot_le st.da.tp_size hi; omega)
      have hs := slot_le st.da.tp_size hi
      have hm : st.da.elem_amount * st.da.tp_size ≤ n * st.da.tp_size :=
        Nat.mul_le_mul_right _ (by omega)
      obtain ⟨hre, hrt⟩ := darray_reserve_elem_amount w o st n
      rw [darray_at_ret_of_lt w _ i (by rw [hre]; exact hi) (by rw [hrt]; omega),
        darray_at_ret_of_lt w st i hi (by omega), hrt, Nat.add_assoc, hpres, Nat.add_assoc]

/-- C12 (as amended), at the input of the resizing test: `reserve(50)` on the array of
size 10 and stride 4 succeeds, gives capacity 50, leaves the size at 10 and leaves every
byte of the ten elements as it was. -/
theorem darray_reserve_spec_witness :
    regrown_state.da.elem_amount = 10 ∧
    regrown_state.da.alloc_size < 50 ∧
    (darray_reserve 64 (alloc_ok 81920) regrown_state 50).ret ≠ NULL ∧
    regrown_state.da.elem_amount ≤ regrown_state.da.alloc_size ∧
    50 * regrown_state.da.tp_size < 2 ^ 64 ∧
    (darray_reserve 64 (alloc_ok 81920) regrown_state 50).st.da.alloc_size = 50 ∧
    (darray_reserve 64 (alloc_ok 81920) regrown_state 50).st.da.elem_amount =
      regrown_state.da.elem_amount ∧
    (∀ i b, i < regrown_state.da.elem_amount → b < regrown_state.da.tp_size →
      (darray_reserve 64 (alloc_ok 81920) regrown_state 50).st.mem
          ((darray_at 64 (darray_reserve 64 (alloc_ok 81920) regrown_state 50).st i).ret + b) =
        regrown_state.mem ((darray_at 64 regrown_state i).ret + b)) :=
  ⟨by decide, by decide, by decide, by decide, by decide,
    ((darray_reserve_spec 64 (alloc_ok 81920) regrown_state 50).2 (by decide) (by decide)).1,
    ((darray_reserve_spec 64 (alloc_ok 81920) regrown_state 50).2 (by decide)
      (by decide)).2.1,
    ((darray_reserve_spec 64 (alloc_ok 81920) regrown_state 50).2 (by decide)
      (by decide)).2.2.2.2.2 (by decide) (by decide)⟩

/-- C12 (counterexample). On the array `[1, 2, 3]` of 4-byte integers (capacity 5),
`reserve(2 ^ 62 + 1)` with a 64-bit `size_t` asks the reallocation for
`(2 ^ 62 + 1) * 4 mod 2 ^ 64 = 4` bytes. The reallocation succeeds at a new address, the
capacity becomes `2 ^ 62 + 1` and the size stays 3, but only the 4 bytes of element 0 are
carried over: element 1, which was 2, now reads 0. -/
theorem darray_reserve_wrapped_request :
    three_elem_state.da.tp_size = 4 ∧
    three_elem_state.da.elem_amount = 3 ∧
    three_elem_state.da.alloc_size = 5 ∧
    wrap 64 ((2 ^ 62 + 1) * three_elem_state.da.tp_size) = 4 ∧
    (darray_reserve 64 (alloc_ok 8192) three_elem_state (2 ^ 62 + 1)).ret ≠ NULL ∧
    (darray_reserve 64 (alloc_ok 8192) three_elem_state (2 ^ 62 + 1)).st.da.alloc_size =
      2 ^ 62 + 1 ∧
    (darray_reserve 64 (alloc_ok 8192) three_elem_state (2 ^ 62 + 1)).st.da.elem_amount = 3 ∧
    three_elem_state.mem ((darray_at 64 three_elem_state 1).ret) = 2 ∧
    (darray_reserve 64 (alloc_ok 8192) three_elem_state (2 ^ 62 + 1)).st.mem
      ((darray_at 64 (darray_reserve 64 (alloc_ok 8192) three_elem_state (2 ^ 62 + 1)).st
        1).ret) = 0 := by
  decide

/-- C13 (as amended). A `resize(n)` that does not return null sets the size to `n`, keeps
the stride, leaves a capacity of at least `n` and returns the buffer. When `n * stride`
is representable in `size_t`, it makes every byte of every element at an index `i` with
`old size <= i < n` zero, whatever those slots held before, and, for an array with
`size <= capacity` and `capacity * stride` representable, it leaves every byte of every
element at an index `i < min(old size, n)` unchanged. -/
theorem darray_resize_spec (w : Nat) (o : alloc_outcome) (st : State) (n : Nat)
    (h : (darray_resize w o st n).ret ≠ NULL) :
    (darray_resize w o st n).st.da.elem_amount = n ∧
    (darray_resize w o st n).st.da.tp_size = st.da.tp_size ∧
    n ≤ (darray_resize w o st n).st.da.alloc_size ∧
    (darray_resize w o st n).ret = (darray_resize w o st n).st.da.data ∧
    (n * st.da.tp_size < 2 ^ w →
      (∀ i b, b < st.da.tp_size → st.da.elem_amount ≤ i → i < n →
        (darray_resize w o st n).st.mem ((darray_at w (darray_resize w o st n).st i).ret + b) =
          0) ∧
      (st.da.elem_amount ≤ st.da.alloc_size → st.da.alloc_size * st.da.tp_size < 2 ^ w →
        ∀ i b, b < st.da.tp_size → i < st.da.elem_amount → i < n →
          (darray_resize w o st n).st.mem
              ((darray_at w (darray_resize w o st n).st i).ret + b) =
            st.mem ((darray_at w st i).ret + b))) := by
  have hr : (darray_reserve w o st n).ret ≠ NULL := by
    intro hnull
    apply h
    unfold darray_resize
    simp only [hnull, if_true]
  obtain ⟨hre, hrt⟩ := darray_reserve_elem_amount w o st n
  obtain ⟨hrd, hrn, _⟩ := darray_reserve_ok w o st n hr
  have ksub : (n - st.da.elem_amount) * st.da.tp_size =
      n * st.da.tp_size - st.da.elem_amount * st.da.tp_size := Nat.sub_mul _ _ _
  rw [darray_resize_eq w o st n hr]
  refine ⟨rfl, hrt, hrn, hrd, ?_⟩
  intro hfn
  have hat : ∀ j, j < n →
      (darray_at w
        { da := { (darray_reserve w o st n).st.da with elem_amount := n },
          mem :=
            if n > st.da.elem_amount then
              memset (darray_reserve w o st n).st.mem
                ((darray_reserve w o st n).st.da.data +
                  wrap w (st.da.elem_amount * (darray_reserve w o st n).st.da.tp_size)) 0
                (wrap w ((n - st.da.elem_amount) * (darray_reserve w o st n).st.da.tp_size))
            else (darray_reserve w o st n).st.mem,
          errno := (darray_reserve w o st n).st.errno } j).ret =
        (darray_reserve w o st n).st.da.data + j * st.da.tp_size := by
    intro j hj
    have hs := slot_le st.da.tp_size hj
    rw [darray_at_ret_of_lt w _ j hj (by show j * (darray_reserve w o st n).st.da.tp_size < 2 ^ w; rw [hrt]; omega)]
    show (darray_reserve w o st n).st.da.data + j * (darray_reserve w o st n).st.da.tp_size = _
    rw [hrt]
  constructor
  · intro i b hb hi hin
    have hs := slot_le st.da.tp_size hin
    have hei : st.da.elem_amount * st.da.tp_size ≤ i * st.da.tp_size :=
      Nat.mul_le_mul_right _ hi
    have hen : st.da.elem_amount * st.da.tp_size ≤ n * st.da.tp_size :=
      Nat.mul_le_mul_right _ (by omega)
    rw [hat i hin]
    dsimp only
    rw [hrt, wrap_of_lt (by omega : st.da.elem_amount * st.da.tp_size < 2 ^ w),
      wrap_of_lt (by omega : (n - st.da.elem_amount) * st.da.tp_size < 2 ^ w),
      if_pos (by omega : n > st.da.elem_amount)]
    simp only [memset]
    rw [if_pos ⟨by omega, by omega⟩]
  · intro hinv hfa i b hb hi hin
    have hea : st.da.elem_amount * st.da.tp_size ≤ st.da.alloc_size * st.da.tp_size :=
      Nat.mul_le_mul_right _ hinv
    have hs := slot_le st.da.tp_size hi
    rw [hat i hin, darray_at_ret_of_lt w st i hi (by omega)]
    have hpres := darray_reserve_preserves w o st n hinv (fun _ => hfn)
      (i * st.da.tp_size + b) (by omega)
    dsimp only
    rw [hrt, wrap_of_lt (by omega : st.da.elem_amount * st.da.tp_size < 2 ^ w)]
    by_cases hgt : n > st.da.elem_amount
    · rw [if_pos hgt]
      simp only [memset]
      rw [if_neg (by omega), Nat.add_assoc, hpres, Nat.add_assoc]
    · rw [if_neg hgt, Nat.add_assoc, hpres, Nat.add_assoc]

/-- C13 (as amended), at the input of the resizing test: `[1, 2, 3, 4, 5]` after
`resize(3)` has size 3; `resize(10)` then gives size 10, `at(0) == 1`, zero bytes at the
indices 3 to 9, where slots 3 and 4 held the stale values 4 and 5 and the reallocation
left the byte 255 in the fresh part, and unchanged bytes at the indices 0 to 2. -/
theorem darray_resize_spec_witness :
    shrunk_state.da.elem_amount = 3 ∧
    shrunk_state.mem ((darray_at 64 shrunk_state 0).ret) = 1 ∧
    shrunk_state.mem (shrunk_state.da.data + 3 * 4) = 4 ∧
    (darray_resize 64 { ptr := 40960, err := none, fresh := fun _ => 255 } shrunk_state
      10).ret ≠ NULL ∧
    10 * shrunk_state.da.tp_size < 2 ^ 64 ∧
    shrunk_state.da.elem_amount ≤ shrunk_state.da.alloc_size ∧
    shrunk_state.da.alloc_size * shrunk_state.da.tp_size < 2 ^ 64 ∧
    regrown_state.da.elem_amount = 10 ∧
    regrown_state.mem ((darray_at 64 regrown_state 0).ret) = 1 ∧
    (∀ i b, b < shrunk_state.da.tp_size → shrunk_state.da.elem_amount ≤ i → i < 10 →
      regrown_state.mem ((darray_at 64 regrown_state i).ret + b) = 0) ∧
    (∀ i b, b < shrunk_state.da.tp_size → i < shrunk_state.da.elem_amount → i < 10 →
      regrown_state.mem ((darray_at 64 regrown_state i).ret + b) =
        shrunk_state.mem ((darray_at 64 shrunk_state i).ret + b)) :=
  ⟨by decide, by decide, by decide, by decide, by decide, by decide, by decide,
    (darray_resize_spec 64 { ptr := 40960, err := none, fresh := fun _ => 255 } shrunk_state 10
      (by decide)).1,
    by decide,
    ((darray_resize_spec 64 { ptr := 40960, err := none, fresh := fun _ => 255 }
      shrunk_state 10 (by decide)).2.2.2.2 (by decide)).1,
    ((darray_resize_spec 64 { ptr := 40960, err := none, fresh := fun _ => 255 }
      shrunk_state 10 (by decide)).2.2.2.2 (by decide)).2 (by decide) (by decide)⟩

/-- C13 (counterexample). On a fresh array of 4-byte elements, `resize(2 ^ 62 + 2)` with a
64-bit `size_t` asks the reallocation for `(2 ^ 62 + 2) * 4 mod 2 ^ 64 = 8` bytes and
zeroes 8 bytes. The call succeeds and the size becomes `2 ^ 62 + 2`; the element at
index 1 is zero, but the element at index 2, below the new size, lies past the 8 bytes
and still holds the byte 255 that was in memory there. -/
theorem darray_resize_wrapped_request :
    wrap 64 ((2 ^ 62 + 2) * 4) = 8 ∧
    (darray_resize 64 (alloc_ok 4096) (fresh_state 4 (fun _ => 255) 0) (2 ^ 62 + 2)).ret ≠
      NULL ∧
    (darray_resize 64 (alloc_ok 4096) (fresh_state 4 (fun _ => 255) 0)
      (2 ^ 62 + 2)).st.da.elem_amount = 2 ^ 62 + 2 ∧
    (darray_resize 64 (alloc_ok 4096) (fresh_state 4 (fun _ => 255) 0) (2 ^ 62 + 2)).st.mem
      ((darray_at 64
        (darray_resize 64 (alloc_ok 4096) (fresh_state 4 (fun _ => 255) 0) (2 ^ 62 + 2)).st
        1).ret) = 0 ∧
    (darray_resize 64 (alloc_ok 4096) (fresh_state 4 (fun _ => 255) 0) (2 ^ 62 + 2)).st.mem
      ((darray_at 64
        (darray_resize 64 (alloc_ok 4096) (fresh_state 4 (fun _ => 255) 0) (2 ^ 62 + 2)).st
        2).ret) = 255 := by
  decide

/-- C14. Whenever `reserve` or `resize` returns null, the control block (stride, capacity,
size, buffer address) and the memory are what they were before the call. The same
holds for `insert` on an array that has a buffer whenever its capacity is not zero and
whose `size + 1` is representable in `size_t`, and for `erase` on an array that has a
buffer whenever it is not empty. Every array reachable from a construction meets these
conditions on the buffer (`run_buffer_present`). -/
theorem darray_failure_transactional (w : Nat) (o : alloc_outcome) (st : State)
    (v : Nat → Nat) (n pos : Nat) :
    ((darray_reserve w o st n).ret = NULL →
      (darray_reserve w o st n).st.da = st.da ∧ (darray_reserve w o st n).st.mem = st.mem) ∧
    ((darray_resize w o st n).ret = NULL →
      (darray_resize w o st n).st.da = st.da ∧ (darray_resize w o st n).st.mem = st.mem) ∧
    ((st.da.alloc_size ≠ 0 → st.da.data ≠ NULL) → st.da.elem_amount + 1 < 2 ^ w →
      (darray_insert w o st v pos).ret = NULL →
      (darray_insert w o st v pos).st.da = st.da ∧ (darray_insert w o st v pos).st.mem = st.mem) ∧
    ((st.da.elem_amount ≠ 0 → st.da.data ≠ NULL) →
      (darray_erase w st pos).ret = NULL →
      (darray_erase w st pos).st.da = st.da ∧ (darray_erase w st pos).st.mem = st.mem) := by
  refine ⟨darray_reserve_null w o st n, ?_, ?_, ?_⟩
  · intro h
    obtain ⟨h1, h2⟩ := darray_resize_null w o st n h
    rw [h2]
    exact darray_reserve_null w o st n h1
  · intro hbuf he h
    by_cases h1 : pos > st.da.elem_amount
    · simp [darray_insert, h1]
    · have hpos : pos ≤ st.da.elem_amount := by omega
      by_cases h2 : st.da.elem_amount ≥ st.da.alloc_size
      · by_cases h3 : (darray_reserve w o st (darray_grow_size w st.da)).ret = NULL
        · have heq : darray_insert w o st v pos =
              { ret := NULL, st := (darray_reserve w o st (darray_grow_size w st.da)).st } := by
            unfold darray_insert
            rw [if_neg h1, if_pos h2]
            simp only [h3, if_true]
          rw [heq]
          exact darray_reserve_null w o st _ h3
        · exfalso
          have heq : darray_insert w o st v pos =
              darray_insert_store w (insert_base w o st) v pos := by
            unfold darray_insert insert_base
            rw [if_neg h1, if_pos h2, if_pos h2]
            simp only [h3, if_false]
          obtain ⟨hbe, _⟩ := insert_base_elem_amount w o st
          obtain ⟨hd, _⟩ := insert_base_data_ne_null w o st (fun _ => h3) hbuf
          rw [heq] at h
          exact darray_insert_store_ret w _ v pos (by rw [hbe]; exact hpos)
            (by rw [hbe]; exact he) hd h
      · exfalso
        have heq : darray_insert w o st v pos = darray_insert_store w st v pos := by
          unfold darray_insert
          rw [if_neg h1, if_neg h2]
        rw [heq] at h
        exact darray_insert_store_ret w st v pos hpos he (hbuf (by omega)) h
  · intro hne h
    by_cases hg : pos > st.da.elem_amount ∨ st.da.elem_amount = 0
    · rw [darray_erase_rejected w st pos hg]
      exact ⟨rfl, rfl⟩
    · exfalso
      rw [darray_erase_ret w st pos hg] at h
      exact hne (by omega) h

/-- C14, at concrete inputs: `insert` at position 3 and `erase` at position 2 of the
one-element array return null and leave its control block and memory alone. -/
theorem darray_failure_transactional_witness :
    (darray_insert 64 (alloc_ok 8192) one_elem_state (int_bytes 7) 3).ret = NULL ∧
    (darray_insert 64 (alloc_ok 8192) one_elem_state (int_bytes 7) 3).st.da =
      one_elem_state.da ∧
    (darray_insert 64 (alloc_ok 8192) one_elem_state (int_bytes 7) 3).st.mem =
      one_elem_state.mem ∧
    (darray_erase 64 one_elem_state 2).ret = NULL ∧
    (darray_erase 64 one_elem_state 2).st.da = one_elem_state.da ∧
    (darray_erase 64 one_elem_state 2).st.mem = one_elem_state.mem :=
  ⟨by decide,
    ((darray_failure_transactional 64 (alloc_ok 8192) one_elem_state (int_bytes 7) 0
      3).2.2.1 (by decide) (by decide) (by decide)).1,
    ((darray_failure_transactional 64 (alloc_ok 8192) one_elem_state (int_bytes 7) 0
      3).2.2.1 (by decide) (by decide) (by decide)).2,
    by decide,
    ((darray_failure_transactional 64 (alloc_ok 8192) one_elem_state (int_bytes 7) 0
      2).2.2.2 (by decide) (by decide)).1,
    ((darray_failure_transactional 64 (alloc_ok 8192) one_elem_state (int_bytes 7) 0
      2).2.2.2 (by decide) (by decide)).2⟩

/-- C15. On an array whose size is a `size_t` value and which has a buffer whenever its
capacity is not zero, if `push_back(v)` succeeds then the size has grown by one, the
following `pop_back` succeeds (it returns a non-null pointer and leaves `errno` alone),
and after the pair the size is what it was before and the capacity is at least what it
was before. -/
theorem push_back_pop_back (w : Nat) (o : alloc_outcome) (st : State) (v : Nat → Nat)
    (he : st.da.elem_amount < 2 ^ w) (hbuf : st.da.alloc_size ≠ 0 → st.da.data ≠ NULL)
    (h : (darray_push_back w o st v).ret ≠ NULL) :
    (darray_push_back w o st v).st.da.elem_amount = st.da.elem_amount + 1 ∧
    (darray_pop_back w (darray_push_back w o st v).st).ret ≠ NULL ∧
    (darray_pop_back w (darray_push_back w o st v).st).st.errno =
      (darray_push_back w o st v).st.errno ∧
    (darray_pop_back w (darray_push_back w o st v).st).st.da.elem_amount = st.da.elem_amount ∧
    st.da.alloc_size ≤ (darray_pop_back w (darray_push_back w o st v).st).st.da.alloc_size := by
  unfold darray_push_back darray_size at h ⊢
  obtain ⟨_, heq⟩ := darray_insert_of_success w o st v st.da.elem_amount h
  obtain ⟨hbe, hbt⟩ := insert_base_elem_amount w o st
  have he1 : st.da.elem_amount + 1 < 2 ^ w := by
    by_contra hnot
    have hw : (insert_base w o st).da.elem_amount + 1 = 2 ^ w := by rw [hbe]; omega
    have hnull := darray_insert_store_wrap w (insert_base w o st) v hw
    rw [hbe] at hnull
    rw [heq] at h
    exact h hnull
  obtain ⟨hd, hcap, _⟩ := insert_base_data_ne_null w o st
    (darray_insert_reserve_ok w o st v st.da.elem_amount h) hbuf
  have hst := darray_insert_store_eq w (insert_base w o st) v st.da.elem_amount
    (by rw [hbe]) (by rw [hbe]; exact he1)
  rw [heq, hst]
  unfold darray_pop_back darray_size
  dsimp only
  rw [hbe, wrap_succ_pred he1]
  have hg : ¬ (st.da.elem_amount > st.da.elem_amount + 1 ∨ st.da.elem_amount + 1 = 0) := by
    omega
  unfold darray_erase
  dsimp only
  rw [if_neg hg, if_pos (by omega : st.da.elem_amount = st.da.elem_amount + 1 - 1)]
  exact ⟨rfl, hd, rfl, by simp, hcap⟩

/-- C15, at a concrete input: `push_back(4)` then `pop_back` on `[1, 2, 3]`. -/
theorem push_back_pop_back_witness :
    three_elem_state.da.elem_amount < 2 ^ 64 ∧
    (darray_push_back 64 (alloc_ok 8192) three_elem_state (int_bytes 4)).ret ≠ NULL ∧
    (darray_pop_back 64
      (darray_push_back 64 (alloc_ok 8192) three_elem_state (int_bytes 4)).st).ret ≠ NULL ∧
    (darray_pop_back 64
      (darray_push_back 64 (alloc_ok 8192) three_elem_state (int_bytes 4)).st).st.da.elem_amount =
        three_elem_state.da.elem_amount ∧
    three_elem_state.da.alloc_size ≤
      (darray_pop_back 64
        (darray_push_back 64 (alloc_ok 8192) three_elem_state
          (int_bytes 4)).st).st.da.alloc_size :=
  ⟨by decide, by decide,
    (push_back_pop_back 64 (alloc_ok 8192) three_elem_state (int_bytes 4) (by decide)
      (by decide) (by decide)).2.1,
    (push_back_pop_back 64 (alloc_ok 8192) three_elem_state (int_bytes 4) (by decide)
      (by decide) (by decide)).2.2.2.1,
    (push_back_pop_back 64 (alloc_ok 8192) three_elem_state (int_bytes 4) (by decide)
      (by decide) (by decide)).2.2.2.2⟩

/-- C16. On an empty array, for every width `w` of `size_t`: `pop_back` is `erase` at the
wrapped position `2 ^ w - 1`, `pop_front` is `erase` at 0, and both return null with
`errno = ERANGE` and leave the control block and the memory as they are. -/
theorem pop_empty_rejected (w : Nat) (st : State) (h : st.da.elem_amount = 0) :
    darray_pop_back w st = darray_erase w st (2 ^ w - 1) ∧
    (darray_pop_back w st).ret = NULL ∧
    (darray_pop_back w st).st.errno = ERANGE ∧
    (darray_pop_back w st).st.da = st.da ∧
    (darray_pop_back w st).st.mem = st.mem ∧
    darray_pop_front w st = darray_erase w st 0 ∧
    (darray_pop_front w st).ret = NULL ∧
    (darray_pop_front w st).st.errno = ERANGE ∧
    (darray_pop_front w st).st.da = st.da ∧
    (darray_pop_front w st).st.mem = st.mem := by
  have hb : darray_pop_back w st = darray_erase w st (2 ^ w - 1) := by
    unfold darray_pop_back darray_size
    rw [h, wrap_zero_pred]
  have h1 := darray_erase_rejected w st (2 ^ w - 1) (Or.inr h)
  have h2 := darray_erase_rejected w st 0 (Or.inr h)
  refine ⟨hb, ?_, ?_, ?_, ?_, rfl, ?_, ?_, ?_, ?_⟩
  · rw [hb, h1]
  · rw [hb, h1]
  · rw [hb, h1]
  · rw [hb, h1]
  · unfold darray_pop_front; rw [h2]
  · unfold darray_pop_front; rw [h2]
  · unfold darray_pop_front; rw [h2]
  · unfold darray_pop_front; rw [h2]

/-- C16, at the input of the edge-case test: `pop_back` and `pop_front` on a fresh array
of element size 4, with a 64-bit `size_t`. -/
theorem pop_empty_rejected_witness :
    (fresh_state 4 (fun _ => 0) 0).da.elem_amount = 0 ∧
    darray_pop_back 64 (fresh_state 4 (fun _ => 0) 0) =
      darray_erase 64 (fresh_state 4 (fun _ => 0) 0) (2 ^ 64 - 1) ∧
    (darray_pop_back 64 (fresh_state 4 (fun _ => 0) 0)).ret = NULL ∧
    (darray_pop_back 64 (fresh_state 4 (fun _ => 0) 0)).st.errno = ERANGE ∧
    (darray_pop_front 64 (fresh_state 4 (fun _ => 0) 0)).ret = NULL ∧
    (darray_pop_front 64 (fresh_state 4 (fun _ => 0) 0)).st.errno = ERANGE :=
  ⟨rfl,
    (pop_empty_rejected 64 (fresh_state 4 (fun _ => 0) 0) rfl).1,
    (pop_empty_rejected 64 (fresh_state 4 (fun _ => 0) 0) rfl).2.1,
    (pop_empty_rejected 64 (fresh_state 4 (fun _ => 0) 0) rfl).2.2.1,
    (pop_empty_rejected 64 (fresh_state 4 (fun _ => 0) 0) rfl).2.2.2.2.2.2.1,
    (pop_empty_rejected 64 (fresh_state 4 (fun _ => 0) 0) rfl).2.2.2.2.2.2.2.1⟩

/-! ## The claims on the linked list -/

/-- C17 (failing input). In the chain of node 100 followed by node 200, the tail reached
from the handle 100 is 200, yet `list_append` on the handle 100 makes a node 300 with
payload 12 whose `prev` is the handle 100, while node 200 gets `next = 300`. In the same
chain the head reached from the handle 200 is 100, yet `list_prepend` on the handle 200
makes a node whose `next` is the handle 200, while node 100 gets `prev = 300`. -/
theorem list_append_links_handle_not_tail :
    LIST_TO_TAIL two_node_chain.heap 8 100 = some 200 ∧
    (list_append 8 (alloc_ok 300) two_node_chain 100 12).map
        (fun r => (r.ret, (r.st.heap r.ret).data, (r.st.heap r.ret).prev,
          (r.st.heap 200).next)) =
      some (300, 12, 100, 300) ∧
    LIST_TO_HEAD two_node_chain.heap 8 200 = some 100 ∧
    (list_prepend 8 (alloc_ok 300) two_node_chain 200 12).map
        (fun r => (r.ret, (r.st.heap r.ret).data, (r.st.heap r.ret).next,
          (r.st.heap 100).prev)) =
      some (300, 12, 200, 300) := by
  decide

/-- C18 (failing input). After `list_new`, `list_append(L, 11)` and `list_append(L, 12)`
on the same handle, all three nodes are allocated, node 300 has `prev = 100` while
node 100 has `next = 200`, and node 200 has `next = 300` while node 300 has
`prev = 100`: the links are not symmetric. And `list_free_node` on the middle node of
the chain 100, 200, 300 leaves node 100 with `next = 300` while node 300 keeps
`prev = 200`, the released node. -/
theorem list_links_not_symmetric :
    (list_append 8 (alloc_ok 200) single_node 100 11).isSome = true ∧
    (list_append 8 (alloc_ok 300) two_node_chain 100 12).isSome = true ∧
    forked_chain.live 100 = true ∧ forked_chain.live 200 = true ∧
    forked_chain.live 300 = true ∧
    list_prev forked_chain 300 = 100 ∧
    list_next forked_chain (list_prev forked_chain 300) = 200 ∧
    list_next forked_chain 200 = 300 ∧
    list_prev forked_chain (list_next forked_chain 200) = 100 ∧
    (list_free_node 8 three_node_chain 200).map
        (fun s => (s.live 100, s.live 200, s.live 300, (s.heap 100).next, (s.heap 300).prev)) =
      some (true, false, true, 300, 200) := by
  decide

/-- C19. `at(node, 0)` returns `node`. For `k` forward hops: if each of the first `k`
nodes on the way has a successor, `at(node, k)` returns the node reached by `k` hops
over `next` and leaves the state alone; if one of them has none, it returns null with
`errno = ERANGE`. For a negative index `-k` the same holds with `prev`. Whatever the
index, the heap and the set of allocated nodes are unchanged. -/
theorem list_at_spec (st : ListState) (node k : Nat) :
    list_at st node 0 = { ret := node, st := st } ∧
    ((∀ j, j < k → list_next st ((list_next st)^[j] node) ≠ NULL) →
      list_at st node (k : Int) = { ret := (list_next st)^[k] node, st := st }) ∧
    ((∃ j, j < k ∧ list_next st ((list_next st)^[j] node) = NULL) →
      (list_at st node (k : Int)).ret = NULL ∧ (list_at st node (k : Int)).st.errno = ERANGE) ∧
    ((∀ j, j < k → list_prev st ((list_prev st)^[j] node) ≠ NULL) →
      list_at st node (-(k : Int)) = { ret := (list_prev st)^[k] node, st := st }) ∧
    ((∃ j, j < k ∧ list_prev st ((list_prev st)^[j] node) = NULL) →
      (list_at st node (-(k : Int))).ret = NULL ∧
      (list_at st node (-(k : Int))).st.errno = ERANGE) ∧
    (∀ index : Int, (list_at st node index).st.heap = st.heap ∧
      (list_at st node index).st.live = st.live) := by
  refine ⟨rfl, ?_, ?_, ?_, ?_, ?_⟩
  · intro h
    rw [list_at_nonneg, (list_at_fwd_eq st k node).1 h]
  · intro h
    rw [list_at_nonneg, (list_at_fwd_eq st k node).2 h]
    exact ⟨rfl, rfl⟩
  · intro h
    cases k with
    | zero => rfl
    | succ m => rw [list_at_neg st node (m + 1) (by omega), (list_at_back_eq st (m + 1) node).1 h]
  · intro h
    obtain ⟨j, hj, _⟩ := h
    have hk : 0 < k := by omega
    rw [list_at_neg st node k hk, (list_at_back_eq st k node).2 ⟨j, hj, by assumption⟩]
    exact ⟨rfl, rfl⟩
  · intro index
    unfold list_at
    split <;> exact ⟨rfl, rfl⟩

/-- C19, on the chain 100, 200, 300: from node 200, `at(1)` is 300, `at(-1)` is 100, and
`at(2)` and `at(-2)` fail with `ERANGE`. -/
theorem list_at_spec_witness :
    (list_at three_node_chain 200 1).ret = 300 ∧
    (list_at three_node_chain 200 (-1)).ret = 100 ∧
    (list_at three_node_chain 200 2).ret = NULL ∧
    (list_at three_node_chain 200 2).st.errno = ERANGE ∧
    (list_at three_node_chain 200 (-2)).ret = NULL ∧
    (list_at three_node_chain 200 (-2)).st.errno = ERANGE ∧
    (list_at three_node_chain 200 (-2)).st.heap = three_node_chain.heap :=
  ⟨by decide, by decide,
    ((list_at_spec three_node_chain 200 2).2.2.1 ⟨1, by decide, by decide⟩).1,
    ((list_at_spec three_node_chain 200 2).2.2.1 ⟨1, by decide, by decide⟩).2,
    ((list_at_spec three_node_chain 200 2).2.2.2.2.1 ⟨1, by decide, by decide⟩).1,
    ((list_at_spec three_node_chain 200 2).2.2.2.2.1 ⟨1, by decide, by decide⟩).2,
    ((list_at_spec three_node_chain 200 2).2.2.2.2.2 (-2)).1⟩

/-- C20. For all payloads `A`, `B`, `C` and any three distinct non-null addresses the
allocator returns: after `list_new` (node `L`), `set_data(L, A)`, `append(L, B)` and
`prepend(L, C)`, with any positive bound on the walks, `data(L) == A`,
`data(next(L)) == B`, `at(L, -1)` is the prepended node and holds `C`, `at(L, 1)` is the
appended node and holds `B`, `at(L, -2)` returns null with `errno = ERANGE`, and the
links of the chain `C, A, B` are symmetric with null at both ends. -/
theorem list_test_scenario (st0 : ListState) (mL mB mC : alloc_outcome)
    (A B C f1 f2 : Nat)
    (hL : mL.ptr ≠ NULL) (hB : mB.ptr ≠ NULL) (hC : mC.ptr ≠ NULL)
    (hLB : mL.ptr ≠ mB.ptr) (hLC : mL.ptr ≠ mC.ptr) (hBC : mB.ptr ≠ mC.ptr) :
    (list_new mL st0).ret = mL.ptr ∧
    ∃ sB sC,
      list_append (f1 + 1) mB (list_set_data (list_new mL st0).st mL.ptr A).st mL.ptr B =
        some { ret := mB.ptr, st := sB } ∧
      list_prepend (f2 + 1) mC sB mL.ptr C = some { ret := mC.ptr, st := sC } ∧
      list_data sC mL.ptr = A ∧
      list_data sC (list_next sC mL.ptr) = B ∧
      (list_at sC mL.ptr (-1)).ret = mC.ptr ∧
      list_data sC (list_at sC mL.ptr (-1)).ret = C ∧
      (list_at sC mL.ptr 1).ret = mB.ptr ∧
      list_data sC (list_at sC mL.ptr 1).ret = B ∧
      (list_at sC mL.ptr (-2)).ret = NULL ∧
      (list_at sC mL.ptr (-2)).st.errno = ERANGE ∧
      list_prev sC mC.ptr = NULL ∧ list_next sC mC.ptr = mL.ptr ∧
      list_prev sC mL.ptr = mC.ptr ∧ list_next sC mL.ptr = mB.ptr ∧
      list_prev sC mB.ptr = mL.ptr ∧ list_next sC mB.ptr = NULL := by
  have hnew : (list_new mL st0).ret = mL.ptr := by
    simp [list_new, list_new_with_allocator, hL]
  have h2 : (list_set_data (list_new mL st0).st mL.ptr A).st.heap mL.ptr =
      { prev := NULL, next := NULL, data := A, malloc_fn := NULL, free_fn := NULL } := by
    simp [list_set_data, list_new, list_new_with_allocator, hL, heap_set]
  obtain ⟨sB, happ, hBn, hBl, hBo, _, _⟩ :=
    list_append_tail f1 mB (list_set_data (list_new mL st0).st mL.ptr A).st mL.ptr B hB
      (fun h => hLB h.symm) (by rw [h2])
  rw [h2] at hBn hBl
  obtain ⟨sC, hpre, hCn, hCl, hCo, _, _⟩ :=
    list_prepend_head f2 mC sB mL.ptr C hC (fun h => hLC h.symm) (by rw [hBl])
  rw [hBl] at hCn hCl
  have hCb : sC.heap mB.ptr = sB.heap mB.ptr := hCo mB.ptr hBC (fun h => hLB h.symm)
  rw [hBn] at hCb
  have hm1 : list_at sC mL.ptr (-1) = { ret := mC.ptr, st := sC } := by
    have : (-1 : Int) = -((1 : Nat) : Int) := rfl
    rw [this, list_at_neg sC mL.ptr 1 (by decide)]
    simp [list_at_back, hCl, hC]
  have hp1 : list_at sC mL.ptr 1 = { ret := mB.ptr, st := sC } := by
    have : (1 : Int) = ((1 : Nat) : Int) := rfl
    rw [this, list_at_nonneg sC mL.ptr 1]
    simp [list_at_fwd, hCl, hB]
  have hm2 : list_at sC mL.ptr (-2) = { ret := NULL, st := { sC with errno := ERANGE } } := by
    have : (-2 : Int) = -((2 : Nat) : Int) := rfl
    rw [this, list_at_neg sC mL.ptr 2 (by decide)]
    simp [list_at_back, hCl, hCn, hC]
  refine ⟨hnew, sB, sC, happ, hpre, ?_, ?_, ?_, ?_, ?_, ?_, ?_, ?_, ?_, ?_, ?_, ?_, ?_, ?_⟩
  · simp [list_data, hCl]
  · simp [list_data, list_next, hCl, hCb]
  · rw [hm1]
  · rw [hm1]; simp [list_data, hCn]
  · rw [hp1]
  · rw [hp1]; simp [list_data, hCb]
  · rw [hm2]
  · rw [hm2]
  · simp [list_prev, hCn]
  · simp [list_next, hCn]
  · simp [list_prev, hCl]
  · simp [list_next, hCl]
  · simp [list_prev, hCb]
  · simp [list_next, hCb]

/-- C20, at a concrete input: nodes at 100, 200 and 300, payloads 65, 66 and 67. -/
theorem list_test_scenario_witness :
    (alloc_ok 100).ptr ≠ NULL ∧ (alloc_ok 100).ptr ≠ (alloc_ok 200).ptr ∧
    (list_new (alloc_ok 100) list_init).ret = (alloc_ok 100).ptr ∧
    ∃ sB sC,
      list_append (0 + 1) (alloc_ok 200)
          (list_set_data (list_new (alloc_ok 100) list_init).st (alloc_ok 100).ptr 65).st
          (alloc_ok 100).ptr 66 =
        some { ret := (alloc_ok 200).ptr, st := sB } ∧
      list_prepend (0 + 1) (alloc_ok 300) sB (alloc_ok 100).ptr 67 =
        some { ret := (alloc_ok 300).ptr, st := sC } ∧
      list_data sC (alloc_ok 100).ptr = 65 ∧
      list_data sC (list_next sC (alloc_ok 100).ptr) = 66 ∧
      (list_at sC (alloc_ok 100).ptr (-1)).ret = (alloc_ok 300).ptr ∧
      list_data sC (list_at sC (alloc_ok 100).ptr (-1)).ret = 67 ∧
      (list_at sC (alloc_ok 100).ptr 1).ret = (alloc_ok 200).ptr ∧
      list_data sC (list_at sC (alloc_ok 100).ptr 1).ret = 66 ∧
      (list_at sC (alloc_ok 100).ptr (-2)).ret = NULL ∧
      (list_at sC (alloc_ok 100).ptr (-2)).st.errno = ERANGE ∧
      list_prev sC (alloc_ok 300).ptr = NULL ∧
      list_next sC (alloc_ok 300).ptr = (alloc_ok 100).ptr ∧
      list_prev sC (alloc_ok 100).ptr = (alloc_ok 300).ptr ∧
      list_next sC (alloc_ok 100).ptr = (alloc_ok 200).ptr ∧
      list_prev sC (alloc_ok 200).ptr = (alloc_ok 100).ptr ∧
      list_next sC (alloc_ok 200).ptr = NULL :=
  ⟨by decide, by decide,
    list_test_scenario list_init (alloc_ok 100) (alloc_ok 200) (alloc_ok 300) 65 66 67 0 0
      (by decide) (by decide) (by decide) (by decide) (by decide) (by decide)⟩

/-! ## Lemmas on the move in erase, on the capacity and on node removal -/

/-- The memory after the interior case of `darray_erase` is the move of `bytes_to_move`
bytes from `src` to `dest`. -/
theorem darray_erase_interior (w : Nat) (st : State) (pos : Nat)
    (h : pos + 1 < st.da.elem_amount) :
    (darray_erase w st pos).st.mem =
      memmove st.mem (darray_erase_dest w st pos) (darray_erase_src w st pos)
        (darray_erase_bytes_to_move w st pos) := by
  have hg : ¬ (pos > st.da.elem_amount ∨ st.da.elem_amount = 0) := by omega
  have ht : ¬ pos = st.da.elem_amount - 1 := by omega
  have hlt : pos < st.da.elem_amount - 1 := by omega
  unfold darray_erase
  rw [if_neg hg, if_neg ht, if_pos hlt]
  rfl

/-- Without wrap-around, the move of the interior case of `darray_erase` reads up to the
end of slot `size`, one slot past the last element. -/
theorem darray_erase_read_end (w : Nat) (st : State) (pos : Nat)
    (h : pos + 1 < st.da.elem_amount)
    (hfit : (st.da.elem_amount + 1) * st.da.tp_size < 2 ^ w) :
    darray_erase_src w st pos + darray_erase_bytes_to_move w st pos =
      st.da.data + (st.da.elem_amount + 1) * st.da.tp_size := by
  have k0 : (st.da.elem_amount + 1) * st.da.tp_size =
      st.da.elem_amount * st.da.tp_size + st.da.tp_size := Nat.succ_mul _ _
  have k1 : (pos + 1) * st.da.tp_size = pos * st.da.tp_size + st.da.tp_size := Nat.succ_mul _ _
  have k2 : (st.da.elem_amount - pos) * st.da.tp_size =
      st.da.elem_amount * st.da.tp_size - pos * st.da.tp_size := Nat.sub_mul _ _ _
  have k3 : pos * st.da.tp_size + st.da.tp_size ≤ st.da.elem_amount * st.da.tp_size :=
    slot_le _ (by omega)
  unfold darray_erase_src darray_erase_bytes_to_move
  rw [wrap_of_lt (by omega), wrap_of_lt (by omega)]
  omega

/-- The function `list_free_node` leaves every node but the predecessor as it is; in
particular the successor keeps its `prev`. -/
theorem list_free_node_frame (fuel : Nat) (st s : ListState) (node : Nat)
    (h : list_free_node fuel st node = some s) (a : Nat) (ha : a ≠ (st.heap node).prev) :
    s.heap a = st.heap a := by
  unfold list_free_node at h
  split at h
  · exact absurd h (by simp)
  · simp only [Option.some.injEq] at h
    rw [← h]
    dsimp only
    split
    · simp [heap_set, ha]
    · rfl

/-- A reduction to `size_t` does not exceed the value reduced. -/
theorem wrap_le_self (w x : Nat) : wrap w x ≤ x := by
  unfold wrap; exact Nat.mod_le _ _

/-- The store step of `darray_insert` leaves the size at `size + 1` reduced to `size_t`. -/
theorem darray_insert_store_size (w : Nat) (st : State) (v : Nat → Nat) (pos : Nat) :
    (darray_insert_store w st v pos).st.da.elem_amount = wrap w (st.da.elem_amount + 1) := by
  unfold darray_insert_store
  split
  · dsimp only
    unfold darray_at
    split <;> rfl
  · dsimp only
    unfold darray_at
    split
    · split <;> rfl
    · split <;> rfl

/-- The growth target of a capacity that is 0 or at least 5, when it is representable. -/
theorem darray_grow_size_of_cap (w : Nat) (st : State)
    (hc : st.da.alloc_size = 0 ∨ 5 ≤ st.da.alloc_size) (hg : grow_ok w st) :
    5 ≤ darray_grow_size w st.da ∧ st.da.alloc_size < darray_grow_size w st.da ∧
    darray_grow_size w st.da =
      (if st.da.alloc_size = 0 then 5 else st.da.alloc_size + st.da.alloc_size / 2) := by
  unfold grow_ok at hg
  by_cases h0 : st.da.alloc_size = 0
  · have : darray_grow_size w st.da = 5 := by
      simp [darray_grow_size, h0, DARRAY_INITIAL_SIZE]
    rw [this, if_pos h0]
    exact ⟨Nat.le_refl _, by omega, rfl⟩
  · have := darray_grow_size_eq w st.da h0 hg
    rw [this, if_neg h0]
    exact ⟨by omega, by omega, rfl⟩

/-- The function `darray_insert` keeps the capacity invariant when the growth target is
representable. -/
theorem darray_insert_cap_inv (w : Nat) (o : alloc_outcome) (st : State) (v : Nat → Nat)
    (pos : Nat) (h : cap_inv st) (hg : grow_ok w st) :
    cap_inv (darray_insert w o st v pos).st := by
  obtain ⟨hc, hle⟩ := h
  obtain ⟨g5, glt, _⟩ := darray_grow_size_of_cap w st hc hg
  by_cases h1 : pos > st.da.elem_amount
  · have heq : darray_insert w o st v pos =
        { ret := NULL, st := { st with errno := ERANGE } } := by
      unfold darray_insert
      rw [if_pos h1]
    rw [heq]
    exact ⟨hc, hle⟩
  · by_cases h2 : st.da.elem_amount ≥ st.da.alloc_size
    · by_cases h3 : (darray_reserve w o st (darray_grow_size w st.da)).ret = NULL
      · have heq : darray_insert w o st v pos =
            { ret := NULL, st := (darray_reserve w o st (darray_grow_size w st.da)).st } := by
          unfold darray_insert
          rw [if_neg h1, if_pos h2]
          simp only [h3, if_true]
        obtain ⟨hda, _⟩ := darray_reserve_null w o st _ h3
        rw [heq]
        unfold cap_inv
        rw [hda]
        exact ⟨hc, hle⟩
      · have heq : darray_insert w o st v pos =
            darray_insert_store w (darray_reserve w o st (darray_grow_size w st.da)).st v pos := by
          unfold darray_insert
          rw [if_neg h1, if_pos h2]
          simp only [h3, if_false]
        obtain ⟨_, hn, _⟩ := darray_reserve_ok w o st _ h3
        obtain ⟨hre, _⟩ := darray_reserve_elem_amount w o st (darray_grow_size w st.da)
        obtain ⟨ha, _, _⟩ := darray_insert_store_da w
          (darray_reserve w o st (darray_grow_size w st.da)).st v pos
        have hs := darray_insert_store_size w
          (darray_reserve w o st (darray_grow_size w st.da)).st v pos
        have hw := wrap_le_self w (st.da.elem_amount + 1)
        rw [heq]
        unfold cap_inv
        rw [ha, hs, hre]
        exact ⟨Or.inr (by omega), by omega⟩
    · have heq : darray_insert w o st v pos = darray_insert_store w st v pos := by
        unfold darray_insert
        rw [if_neg h1, if_neg h2]
      obtain ⟨ha, _, _⟩ := darray_insert_store_da w st v pos
      have hs := darray_insert_store_size w st v pos
      have hw := wrap_le_self w (st.da.elem_amount + 1)
      rw [heq]
      unfold cap_inv
      rw [ha, hs]
      exact ⟨hc, by omega⟩

/-- The function `darray_erase` keeps the capacity invariant. -/
theorem darray_erase_cap_inv (w : Nat) (st : State) (pos : Nat) (h : cap_inv st) :
    cap_inv (darray_erase w st pos).st := by
  obtain ⟨hc, hle⟩ := h
  unfold darray_erase
  split
  · exact ⟨hc, hle⟩
  · split
    · exact ⟨hc, by show st.da.elem_amount - 1 ≤ st.da.alloc_size; omega⟩
    · split
      · exact ⟨hc, by show st.da.elem_amount - 1 ≤ st.da.alloc_size; omega⟩
      · exact ⟨hc, hle⟩

/-- Every operation other than `reserve` and `resize` keeps the capacity invariant when
the growth target is representable. -/
theorem step_cap_inv (w : Nat) (st : State) (op : Op) (h : cap_inv st) (hg : grow_ok w st)
    (hop : op.no_reserve = true) : cap_inv (step w st op) := by
  cases op with
  | reserve n o => simp [Op.no_reserve] at hop
  | resize n o => simp [Op.no_reserve] at hop
  | clear => exact ⟨h.1, Nat.zero_le _⟩
  | insert v pos o => exact darray_insert_cap_inv w o st v pos h hg
  | erase pos => exact darray_erase_cap_inv w st pos h
  | push_back v o => exact darray_insert_cap_inv w o st v _ h hg
  | pop_back => exact darray_erase_cap_inv w st _ h
  | push_front v o => exact darray_insert_cap_inv w o st v 0 h hg
  | pop_front => exact darray_erase_cap_inv w st 0 h

/-- The capacity invariant holds after every admissible sequence of calls. -/
theorem run_cap_inv (w : Nat) (ops : List Op) (st : State) (h : cap_inv st)
    (hok : run_ok w st ops = true) : cap_inv (run w st ops) := by
  induction ops generalizing st with
  | nil => exact h
  | cons op rest ih =>
    simp only [run_ok, Bool.and_eq_true, decide_eq_true_eq] at hok
    obtain ⟨⟨hop, hg⟩, hrest⟩ := hok
    exact ih (step w st op) (step_cap_inv w st op h hg hop) hrest

/-! ## Lemmas on the walks to the ends of a chain -/

/-- The macro `LIST_TO_TAIL` is the walk over `next`. -/
theorem LIST_TO_TAIL_eq (heap : Nat → linked_list) (fuel p : Nat) :
    LIST_TO_TAIL heap fuel p = walk_end (fun q => (heap q).next) fuel p := by
  induction fuel generalizing p with
  | zero => rfl
  | succ k ih => simp only [LIST_TO_TAIL, walk_end, ih]

/-- The macro `LIST_TO_HEAD` is the walk over `prev`. -/
theorem LIST_TO_HEAD_eq (heap : Nat → linked_list) (fuel p : Nat) :
    LIST_TO_HEAD heap fuel p = walk_end (fun q => (heap q).prev) fuel p := by
  induction fuel generalizing p with
  | zero => rfl
  | succ k ih => simp only [LIST_TO_HEAD, walk_end, ih]

/-- A walk over a ranked pointer ends, at an allocated node without successor, as soon
as the bound exceeds the rank of its start. -/
theorem walk_end_terminates (f : Nat → Nat) (live : Nat → Bool) (d : Nat → Nat)
    (hr : ranked f live d) (n : Nat) :
    ∀ p, d p ≤ n → live p = true →
      ∃ t, live t = true ∧ f t = NULL ∧ ∀ fuel, n + 1 ≤ fuel → walk_end f fuel p = some t := by
  induction n with
  | zero =>
    intro p hd hp
    have hf : f p = NULL := by
      by_contra hne
      have := (hr p hp hne).2
      omega
    refine ⟨p, hp, hf, ?_⟩
    intro fuel hfuel
    cases fuel with
    | zero => omega
    | succ k => simp [walk_end, hf]
  | succ m ih =>
    intro p hd hp
    by_cases hf : f p = NULL
    · refine ⟨p, hp, hf, ?_⟩
      intro fuel hfuel
      cases fuel with
      | zero => omega
      | succ k => simp [walk_end, hf]
    · obtain ⟨hl, hlt⟩ := hr p hp hf
      obtain ⟨t, ht, hft, hall⟩ := ih (f p) (by omega) hl
      refine ⟨t, ht, hft, ?_⟩
      intro fuel hfuel
      cases fuel with
      | zero => omega
      | succ k =>
        simp only [walk_end, hf, ne_eq, not_false_eq_true, if_true]
        exact hall k (by omega)

/-- The node a walk over a ranked pointer returns is allocated and has no successor. -/
theorem walk_end_sound (f : Nat → Nat) (live : Nat → Bool) (d : Nat → Nat)
    (hr : ranked f live d) (fuel : Nat) :
    ∀ p t, live p = true → walk_end f fuel p = some t → live t = true ∧ f t = NULL := by
  induction fuel with
  | zero => intro p t _ h; simp [walk_end] at h
  | succ k ih =>
    intro p t hp h
    by_cases hf : f p = NULL
    · simp [walk_end, hf] at h
      rw [← h]
      exact ⟨hp, hf⟩
    · simp only [walk_end, hf, ne_eq, not_false_eq_true, if_true] at h
      exact ih (f p) t (hr p hp hf).1 h

/-- Following a ranked pointer from an allocated node reaches null in finitely many
steps. -/
theorem iterate_reaches_null (f : Nat → Nat) (live : Nat → Bool) (d : Nat → Nat)
    (hr : ranked f live d) (n : Nat) :
    ∀ p, d p ≤ n → live p = true → ∃ k, f^[k] p = NULL := by
  induction n with
  | zero =>
    intro p hd hp
    refine ⟨1, ?_⟩
    by_contra hne
    have := (hr p hp hne).2
    omega
  | succ m ih =>
    intro p hd hp
    by_cases hf : f p = NULL
    · exact ⟨1, hf⟩
    · obtain ⟨hl, hlt⟩ := hr p hp hf
      obtain ⟨k, hk⟩ := ih (f p) (by omega) hl
      exact ⟨k + 1, by rw [Function.iterate_succ_apply]; exact hk⟩

/-- The heap `list_append` walks is `append_heap`. -/
theorem append_heap_eq (st : ListState) (m : alloc_outcome) (list data : Nat) :
    heap_set
        (heap_set st.heap m.ptr
          { prev := NULL, next := NULL, data := NULL, malloc_fn := (st.heap list).malloc_fn,
            free_fn := (st.heap list).free_fn })
        m.ptr
        { (heap_set st.heap m.ptr
            { prev := NULL, next := NULL, data := NULL,
              malloc_fn := (st.heap list).malloc_fn,
              free_fn := (st.heap list).free_fn } m.ptr) with
          data := data, prev := list } = append_heap st m list data := by
  funext a
  simp only [heap_set, append_heap]
  split
  · simp
  · rfl

/-- The function `list_append` in terms of `append_heap`. -/
theorem list_append_eq (fuel : Nat) (m : alloc_outcome) (st : ListState) (list data : Nat) :
    list_append fuel m st list data =
      if m.ptr = NULL then
        some { ret := NULL, st := { st with errno := m.err.getD st.errno } }
      else
        match LIST_TO_TAIL (append_heap st m list data) fuel list with
        | none => none
        | some tail =>
          some
            { ret := m.ptr,
              st :=
                { heap := heap_set (append_heap st m list data) tail
                    { (append_heap st m list data tail) with next := m.ptr },
                  live := fun a => if a = m.ptr then true else st.live a,
                  errno := m.err.getD st.errno } } := by
  by_cases hm : m.ptr = NULL
  · simp [list_append, list_new_with_allocator, hm]
  · rw [if_neg hm]
    unfold list_append
    simp only [list_new_with_allocator, hm, if_false]
    rw [append_heap_eq]

/-- The heap `list_prepend` walks is `prepend_heap`. -/
theorem prepend_heap_eq (st : ListState) (m : alloc_outcome) (list data : Nat) :
    heap_set
        (heap_set st.heap m.ptr
          { prev := NULL, next := NULL, data := NULL, malloc_fn := (st.heap list).malloc_fn,
            free_fn := (st.heap list).free_fn })
        m.ptr
        { (heap_set st.heap m.ptr
            { prev := NULL, next := NULL, data := NULL,
              malloc_fn := (st.heap list).malloc_fn,
              free_fn := (st.heap list).free_fn } m.ptr) with
          data := data, next := list } = prepend_heap st m list data := by
  funext a
  simp only [heap_set, prepend_heap]
  split
  · simp
  · rfl

/-- The function `list_prepend` in terms of `prepend_heap`. -/
theorem list_prepend_eq (fuel : Nat) (m : alloc_outcome) (st : ListState) (list data : Nat) :
    list_prepend fuel m st list data =
      if m.ptr = NULL then
        some { ret := NULL, st := { st with errno := m.err.getD st.errno } }
      else
        match LIST_TO_HEAD (prepend_heap st m list data) fuel list with
        | none => none
        | some head =>
          some
            { ret := m.ptr,
              st :=
                { heap := heap_set (prepend_heap st m list data) head
                    { (prepend_heap st m list data head) with prev := m.ptr },
                  live := fun a => if a = m.ptr then true else st.live a,
                  errno := m.err.getD st.errno } } := by
  by_cases hm : m.ptr = NULL
  · simp [list_prepend, list_new_with_allocator, hm]
  · rw [if_neg hm]
    unfold list_prepend
    simp only [list_new_with_allocator, hm, if_false]
    rw [prepend_heap_eq]

/-- Linking a new node `M` after the end `T` of a walk keeps the pointer ranked. -/
theorem ranked_link_end (f f2 : Nat → Nat) (live : Nat → Bool) (d : Nat → Nat) (M T : Nat)
    (hr : ranked f live d) (hM : live M = false) (hT : live T = true)
    (h2M : f2 M = NULL) (h2T : f2 T = M)
    (h2o : ∀ a, a ≠ M → a ≠ T → f2 a = f a) :
    ranked f2 (fun a => if a = M then true else live a)
      (fun a => if a = M then 0 else d a + 1) := by
  intro q hq hne
  by_cases hqM : q = M
  · rw [hqM] at hne
    exact absurd h2M hne
  · have hql : live q = true := by simpa [hqM] using hq
    by_cases hqT : q = T
    · rw [hqT, h2T]
      have hTM : T ≠ M := fun h => by rw [h, hM] at hT; exact absurd hT (by decide)
      simp [hTM]
    · rw [h2o q hqM hqT] at hne ⊢
      obtain ⟨hl, hlt⟩ := hr q hql hne
      have hnM : f q ≠ M := fun h => by rw [h, hM] at hl; exact absurd hl (by decide)
      simp [hnM, hqM, hl, hlt]

/-- Pointing a new node `M` at an allocated node `p` keeps the pointer ranked. -/
theorem ranked_link_new (g g2 : Nat → Nat) (live : Nat → Bool) (e : Nat → Nat) (M p : Nat)
    (hr : ranked g live e) (hM : live M = false) (hp : live p = true)
    (h2M : g2 M = p) (h2o : ∀ a, a ≠ M → g2 a = g a) :
    ranked g2 (fun a => if a = M then true else live a)
      (fun a => if a = M then e p + 1 else e a) := by
  intro q hq hne
  by_cases hqM : q = M
  · rw [hqM, h2M]
    have hpM : p ≠ M := fun h => by rw [h, hM] at hp; exact absurd hp (by decide)
    simp [hpM, hp]
  · have hql : live q = true := by simpa [hqM] using hq
    rw [h2o q hqM] at hne ⊢
    obtain ⟨hl, hlt⟩ := hr q hql hne
    have hnM : g q ≠ M := fun h => by rw [h, hM] at hl; exact absurd hl (by decide)
    simp [hnM, hqM, hl, hlt]

/-- Overwriting a node with one that has no successor keeps the pointer ranked on the
nodes allocated before. -/
theorem ranked_cut (f f1 : Nat → Nat) (live : Nat → Bool) (d : Nat → Nat) (M : Nat)
    (hr : ranked f live d) (h1M : f1 M = NULL) (h1o : ∀ a, a ≠ M → f1 a = f a) :
    ranked f1 live d := by
  intro q hq hne
  by_cases hqM : q = M
  · rw [hqM] at hne
    exact absurd h1M hne
  · rw [h1o q hqM] at hne ⊢
    exact hr q hq hne

/-- The function `list_append` keeps the chains acyclic and closed. -/
theorem list_append_chain_inv (fuel : Nat) (m : alloc_outcome) (st : ListState) (p data : Nat)
    (r : ListResult) (hinv : chain_inv st) (hp : st.live p = true)
    (hfresh : m.ptr ≠ NULL → st.live m.ptr = false)
    (h : list_append fuel m st p data = some r) : chain_inv r.st := by
  obtain ⟨h0, ⟨d, hd⟩, ⟨e, he⟩⟩ := hinv
  rw [list_append_eq] at h
  by_cases hm : m.ptr = NULL
  · rw [if_pos hm] at h
    simp only [Option.some.injEq] at h
    rw [← h]
    exact ⟨h0, ⟨d, hd⟩, ⟨e, he⟩⟩
  · rw [if_neg hm] at h
    have hM := hfresh hm
    have hr1 : ranked (fun q => (append_heap st m p data q).next) st.live d :=
      ranked_cut (fun q => (st.heap q).next) _ st.live d m.ptr hd
        (by simp [append_heap, heap_set])
        (by intro a ha; simp [append_heap, heap_set, ha])
    cases hT : LIST_TO_TAIL (append_heap st m p data) fuel p with
    | none =>
      rw [hT] at h
      simp at h
    | some T =>
      rw [hT] at h
      simp only [Option.some.injEq] at h
      rw [LIST_TO_TAIL_eq] at hT
      obtain ⟨hTl, _⟩ := walk_end_sound _ st.live d hr1 fuel p T hp hT
      have hTM : T ≠ m.ptr := fun hh => by rw [hh, hM] at hTl; exact absurd hTl (by decide)
      have hMT : m.ptr ≠ T := fun hh => hTM hh.symm
      rw [← h]
      refine ⟨?_, ⟨_, ranked_link_end (fun q => (st.heap q).next) _ st.live d m.ptr T hd hM hTl
        ?_ ?_ ?_⟩, ⟨_, ranked_link_new (fun q => (st.heap q).prev) _ st.live e m.ptr p he hM hp
        ?_ ?_⟩⟩
      · show (if NULL = m.ptr then true else st.live NULL) = false
        rw [if_neg (fun hh => hm hh.symm)]
        exact h0
      · simp [heap_set, append_heap, hMT]
      · simp [heap_set]
      · intro a haM haT
        simp [heap_set, append_heap, haM, haT]
      · simp [heap_set, append_heap, hMT]
      · intro a haM
        by_cases haT : a = T
        · rw [haT]; simp [heap_set, append_heap, hTM]
        · simp [heap_set, append_heap, haM, haT]

/-- The function `list_prepend` keeps the chains acyclic and closed. -/
theorem list_prepend_chain_inv (fuel : Nat) (m : alloc_outcome) (st : ListState) (p data : Nat)
    (r : ListResult) (hinv : chain_inv st) (hp : st.live p = true)
    (hfresh : m.ptr ≠ NULL → st.live m.ptr = false)
    (h : list_prepend fuel m st p data = some r) : chain_inv r.st := by
  obtain ⟨h0, ⟨d, hd⟩, ⟨e, he⟩⟩ := hinv
  rw [list_prepend_eq] at h
  by_cases hm : m.ptr = NULL
  · rw [if_pos hm] at h
    simp only [Option.some.injEq] at h
    rw [← h]
    exact ⟨h0, ⟨d, hd⟩, ⟨e, he⟩⟩
  · rw [if_neg hm] at h
    have hM := hfresh hm
    have hr1 : ranked (fun q => (prepend_heap st m p data q).prev) st.live e :=
      ranked_cut (fun q => (st.heap q).prev) _ st.live e m.ptr he
        (by simp [prepend_heap, heap_set])
        (by intro a ha; simp [prepend_heap, heap_set, ha])
    cases hT : LIST_TO_HEAD (prepend_heap st m p data) fuel p with
    | none =>
      rw [hT] at h
      simp at h
    | some T =>
      rw [hT] at h
      simp only [Option.some.injEq] at h
      rw [LIST_TO_HEAD_eq] at hT
      obtain ⟨hTl, _⟩ := walk_end_sound _ st.live e hr1 fuel p T hp hT
      have hTM : T ≠ m.ptr := fun hh => by rw [hh, hM] at hTl; exact absurd hTl (by decide)
      have hMT : m.ptr ≠ T := fun hh => hTM hh.symm
      rw [← h]
      refine ⟨?_, ⟨_, ranked_link_new (fun q => (st.heap q).next) _ st.live d m.ptr p hd hM hp
        ?_ ?_⟩, ⟨_, ranked_link_end (fun q => (st.heap q).prev) _ st.live e m.ptr T he hM hTl
        ?_ ?_ ?_⟩⟩
      · show (if NULL = m.ptr then true else st.live NULL) = false
        rw [if_neg (fun hh => hm hh.symm)]
        exact h0
      · simp [heap_set, prepend_heap, hMT]
      · intro a haM
        by_cases haT : a = T
        · rw [haT]; simp [heap_set, prepend_heap, hTM]
        · simp [heap_set, prepend_heap, haM, haT]
      · simp [heap_set, prepend_heap, hMT]
      · simp [heap_set]
      · intro a haM haT
        simp [heap_set, prepend_heap, haM, haT]

/-- Every state built by `list_new`, `list_set_data`, `list_append` and `list_prepend` has
acyclic and closed chains. -/
theorem ListReach_chain_inv (st : ListState) (h : ListReach st) : chain_inv st := by
  induction h with
  | new st0 m mf ff hlive hm =>
    have hl : ∀ q, (if q = m.ptr then true else st0.live q) = true → q = m.ptr := by
      intro q hq
      by_contra hne
      rw [if_neg hne, hlive q] at hq
      exact absurd hq (by decide)
    simp only [list_new_with_allocator, hm, if_false]
    refine ⟨?_, ⟨fun _ => 0, ?_⟩, ⟨fun _ => 0, ?_⟩⟩
    · show (if NULL = m.ptr then true else st0.live NULL) = false
      rw [if_neg (fun hh => hm hh.symm)]
      exact hlive NULL
    · intro q hq hne
      have hqM := hl q hq
      rw [hqM] at hne
      simp [heap_set] at hne
    · intro q hq hne
      have hqM := hl q hq
      rw [hqM] at hne
      simp [heap_set] at hne
  | set_data st p data _ hp ih =>
    obtain ⟨h0, ⟨d, hd⟩, ⟨e, he⟩⟩ := ih
    have hn : ∀ q, ((list_set_data st p data).st.heap q).next = (st.heap q).next := by
      intro q
      simp only [list_set_data, heap_set]
      split
      · next hq => rw [hq]
      · rfl
    have hpv : ∀ q, ((list_set_data st p data).st.heap q).prev = (st.heap q).prev := by
      intro q
      simp only [list_set_data, heap_set]
      split
      · next hq => rw [hq]
      · rfl
    refine ⟨h0, ⟨d, ?_⟩, ⟨e, ?_⟩⟩
    · intro q hq hne
      simp only [hn] at hne ⊢
      exact hd q hq hne
    · intro q hq hne
      simp only [hpv] at hne ⊢
      exact he q hq hne
  | append st fuel m p data r _ hp hfresh happ ih =>
    exact list_append_chain_inv fuel m st p data r ih hp hfresh happ
  | prepend st fuel m p data r _ hp hfresh hpre ih =>
    exact list_prepend_chain_inv fuel m st p data r ih hp hfresh hpre

/-- The loop of `list_free` ends at once on the null pointer. -/
theorem list_free_loop_null (st : ListState) (k : Nat) :
    (list_free_loop st (k + 1) NULL).isSome = true := by
  simp [list_free_loop]

/-- The loop of `list_free` ends when `next` is ranked and the bound exceeds the rank of
its start by two. -/
theorem list_free_loop_terminates (heap : Nat → linked_list) (live : Nat → Bool)
    (d : Nat → Nat) (h0 : live NULL = false)
    (hr : ranked (fun q => (heap q).next) live d) (n : Nat) :
    ∀ (p : Nat) (st : ListState), st.heap = heap → live p = true → d p ≤ n →
      ∀ fuel, n + 2 ≤ fuel → (list_free_loop st fuel p).isSome = true := by
  induction n with
  | zero =>
    intro p st hst hp hd fuel hfuel
    have hpn : p ≠ NULL := fun h => by rw [h, h0] at hp; exact absurd hp (by decide)
    have hf : (heap p).next = NULL := by
      by_contra hne
      have := (hr p hp hne).2
      omega
    cases fuel with
    | zero => omega
    | succ k =>
      cases k with
      | zero => omega
      | succ j =>
        simp only [list_free_loop, hpn, ne_eq, not_false_eq_true, if_true, hst, hf]
        exact list_free_loop_null _ j
  | succ m ih =>
    intro p st hst hp hd fuel hfuel
    have hpn : p ≠ NULL := fun h => by rw [h, h0] at hp; exact absurd hp (by decide)
    cases fuel with
    | zero => omega
    | succ k =>
      simp only [list_free_loop, hpn, ne_eq, not_false_eq_true, if_true, hst]
      by_cases hf : (heap p).next = NULL
      · rw [hf]
        cases k with
        | zero => omega
        | succ j => exact list_free_loop_null _ j
      · obtain ⟨hl, hlt⟩ := hr p hp hf
        have hlt2 : d (heap p).next < d p := hlt
        exact ih (heap p).next _ rfl hl (by omega) k (by omega)

/-- The chain of node 100 followed by node 200 is built by `list_new` and `list_append`. -/
theorem two_node_chain_reach : ListReach two_node_chain := by
  have h1 : ListReach single_node :=
    ListReach.new list_init (alloc_ok 100) NULL NULL (fun _ => rfl) (by decide)
  obtain ⟨s, hs, _⟩ := list_append_tail 7 (alloc_ok 200) single_node 100 11 (by decide)
    (by decide) (by decide)
  have h2 := ListReach.append single_node 8 (alloc_ok 200) 100 11 _ h1 (by decide)
    (fun _ => by decide) hs
  have heq : two_node_chain = s := by
    unfold two_node_chain state_of
    rw [hs]
  rw [heq]
  exact h2

/-! ## The claims on node removal, the move in erase, termination and the capacity -/

/-- C21 (failing input). In the symmetric chain 100, 200, 300, `list_free_node` on the
middle node 200 (both neighbours present) makes `next` of node 100 point to node 300,
but node 300 keeps `prev = 200`: the second splice is not performed and a remaining
node still refers to the released one. -/
theorem list_free_node_one_splice :
    list_prev three_node_chain 200 = 100 ∧ list_next three_node_chain 200 = 300 ∧
    list_next three_node_chain 100 = 200 ∧ list_prev three_node_chain 300 = 200 ∧
    (list_free_node 8 three_node_chain 200).isSome = true ∧
    (list_free_node 8 three_node_chain 200).map
        (fun s => (list_next s 100, list_prev s 300, s.live 100, s.live 200, s.live 300)) =
      some (300, 200, true, false, true) := by
  decide

/-- C22 (failing input). On the full array `[1, 2, 3, 4, 5]` (size 5 = capacity 5, stride 4,
buffer at 4096), the interior case of `erase(1)` moves `bytes_to_move = (5 - 1) * 4`
bytes from `src = data + 2 * 4`: it reads up to `data + 6 * 4`, past the end
`data + 5 * 4` of the buffer, and not up to `size * stride`. The byte 170 stored right
after the buffer ends up inside it, in the slot of index 4. -/
theorem darray_erase_reads_past_buffer :
    full_five_marked.da.elem_amount = 5 ∧ full_five_marked.da.alloc_size = 5 ∧
    full_five_marked.da.tp_size = 4 ∧ full_five_marked.da.data = 4096 ∧
    (darray_erase 64 full_five_marked 1).st.mem =
      memmove full_five_marked.mem (darray_erase_dest 64 full_five_marked 1)
        (darray_erase_src 64 full_five_marked 1)
        (darray_erase_bytes_to_move 64 full_five_marked 1) ∧
    darray_erase_src 64 full_five_marked 1 = full_five_marked.da.data + (1 + 1) * 4 ∧
    darray_erase_bytes_to_move 64 full_five_marked 1 = (5 - 1) * 4 ∧
    darray_erase_src 64 full_five_marked 1 + darray_erase_bytes_to_move 64 full_five_marked 1 =
      full_five_marked.da.data + (5 + 1) * 4 ∧
    full_five_marked.da.data + full_five_marked.da.alloc_size * full_five_marked.da.tp_size <
      darray_erase_src 64 full_five_marked 1 +
        darray_erase_bytes_to_move 64 full_five_marked 1 ∧
    full_five_marked.mem 4116 = 170 ∧
    (darray_erase 64 full_five_marked 1).st.mem 4112 = 170 :=
  ⟨by decide, by decide, by decide, by decide,
    darray_erase_interior 64 full_five_marked 1 (by decide),
    by decide, by decide, by decide, by decide, by decide, by decide⟩

/-- C23. In every state built from a first node by `list_set_data`, `list_append` and
`list_prepend` on allocated nodes (any handle of a chain), the allocator answering null
or an address that is not allocated: from every allocated node, following `next`
reaches null in finitely many steps, and so does following `prev`; the walks to the
tail and to the head return a node for every bound from some bound on; and so do
`list_append` and `list_prepend` on that node (whatever the allocator answers), as
well as `list_free_node` and `list_free`. -/
theorem list_walks_terminate (st : ListState) (hreach : ListReach st) (p : Nat)
    (hp : st.live p = true) :
    (∃ k, (list_next st)^[k] p = NULL) ∧
    (∃ k, (list_prev st)^[k] p = NULL) ∧
    (∃ N t, list_next st t = NULL ∧
      ∀ fuel, N ≤ fuel → LIST_TO_TAIL st.heap fuel p = some t) ∧
    (∃ N t, list_prev st t = NULL ∧
      ∀ fuel, N ≤ fuel → LIST_TO_HEAD st.heap fuel p = some t) ∧
    (∀ (m : alloc_outcome) (data : Nat),
      ∃ N, ∀ fuel, N ≤ fuel → (list_append fuel m st p data).isSome = true) ∧
    (∀ (m : alloc_outcome) (data : Nat),
      ∃ N, ∀ fuel, N ≤ fuel → (list_prepend fuel m st p data).isSome = true) ∧
    (∃ N, ∀ fuel, N ≤ fuel → (list_free_node fuel st p).isSome = true) ∧
    (∃ N, ∀ fuel, N ≤ fuel → (list_free fuel st p).isSome = true) := by
  obtain ⟨h0, ⟨d, hd⟩, ⟨e, he⟩⟩ := ListReach_chain_inv st hreach
  obtain ⟨t, htl, htn, htail⟩ := walk_end_terminates _ st.live d hd (d p) p (Nat.le_refl _) hp
  obtain ⟨hd0, hhl, hhn, hhead⟩ := walk_end_terminates _ st.live e he (e p) p (Nat.le_refl _) hp
  refine ⟨iterate_reaches_null _ st.live d hd (d p) p (Nat.le_refl _) hp,
    iterate_reaches_null _ st.live e he (e p) p (Nat.le_refl _) hp,
    ⟨d p + 1, t, htn, fun fuel hf => by rw [LIST_TO_TAIL_eq]; exact htail fuel hf⟩,
    ⟨e p + 1, hd0, hhn, fun fuel hf => by rw [LIST_TO_HEAD_eq]; exact hhead fuel hf⟩,
    ?_, ?_, ?_, ?_⟩
  · intro m data
    have hr1 : ranked (fun q => (append_heap st m p data q).next) st.live d :=
      ranked_cut (fun q => (st.heap q).next) _ st.live d m.ptr hd
        (by simp [append_heap, heap_set])
        (by intro a ha; simp [append_heap, heap_set, ha])
    obtain ⟨T, _, _, hT⟩ := walk_end_terminates _ st.live d hr1 (d p) p (Nat.le_refl _) hp
    refine ⟨d p + 1, fun fuel hf => ?_⟩
    rw [list_append_eq]
    by_cases hm : m.ptr = NULL
    · rw [if_pos hm]
      rfl
    · rw [if_neg hm, LIST_TO_TAIL_eq, hT fuel hf]
      rfl
  · intro m data
    have hr1 : ranked (fun q => (prepend_heap st m p data q).prev) st.live e :=
      ranked_cut (fun q => (st.heap q).prev) _ st.live e m.ptr he
        (by simp [prepend_heap, heap_set])
        (by intro a ha; simp [prepend_heap, heap_set, ha])
    obtain ⟨T, _, _, hT⟩ := walk_end_terminates _ st.live e hr1 (e p) p (Nat.le_refl _) hp
    refine ⟨e p + 1, fun fuel hf => ?_⟩
    rw [list_prepend_eq]
    by_cases hm : m.ptr = NULL
    · rw [if_pos hm]
      rfl
    · rw [if_neg hm, LIST_TO_HEAD_eq, hT fuel hf]
      rfl
  · refine ⟨e p + 1, fun fuel hf => ?_⟩
    unfold list_free_node
    rw [LIST_TO_HEAD_eq, hhead fuel hf]
    rfl
  · refine ⟨max (e p + 1) (d hd0 + 2), fun fuel hf => ?_⟩
    unfold list_free
    rw [LIST_TO_HEAD_eq, hhead fuel (by omega)]
    exact list_free_loop_terminates st.heap st.live d h0 hd (d hd0) hd0 st rfl hhl
      (Nat.le_refl _) fuel (by omega)

/-- C23, on the chain of node 100 followed by node 200, from the head 100: the walk to the
tail ends at 200, and `list_append` on the head and `list_free` return for every bound
from some bound on. -/
theorem list_walks_terminate_witness :
    ListReach two_node_chain ∧ two_node_chain.live 100 = true ∧
    LIST_TO_TAIL two_node_chain.heap 2 100 = some 200 ∧
    (∃ k, (list_next two_node_chain)^[k] 100 = NULL) ∧
    (∃ N, ∀ fuel, N ≤ fuel →
      (list_append fuel (alloc_ok 300) two_node_chain 100 12).isSome = true) ∧
    (∃ N, ∀ fuel, N ≤ fuel → (list_free fuel two_node_chain 100).isSome = true) :=
  ⟨two_node_chain_reach, by decide, by decide,
    (list_walks_terminate two_node_chain two_node_chain_reach 100 (by decide)).1,
    (list_walks_terminate two_node_chain two_node_chain_reach 100 (by decide)).2.2.2.2.1
      (alloc_ok 300) 12,
    (list_walks_terminate two_node_chain two_node_chain_reach 100
      (by decide)).2.2.2.2.2.2.2⟩

/-- C24. After any sequence of calls from a fresh array that uses neither `reserve` nor
`resize` and before each of which the growth target `C + C / 2` of the capacity is
representable in `size_t`: the capacity is 0 or at least 5, the size does not exceed
the capacity, and (the growth target being representable) every successful insert into
the array when it is full leaves a strictly greater capacity. -/
theorem no_reserve_capacity (w : Nat) (ops : List Op) (s : Nat) (mem : Nat → Nat)
    (errno : Nat) (hok : run_ok w (fresh_state s mem errno) ops = true) :
    ((run w (fresh_state s mem errno) ops).da.alloc_size = 0 ∨
      5 ≤ (run w (fresh_state s mem errno) ops).da.alloc_size) ∧
    (run w (fresh_state s mem errno) ops).da.elem_amount ≤
      (run w (fresh_state s mem errno) ops).da.alloc_size ∧
    (grow_ok w (run w (fresh_state s mem errno) ops) →
      ∀ (o : alloc_outcome) (v : Nat → Nat) (pos : Nat),
        (run w (fresh_state s mem errno) ops).da.elem_amount =
          (run w (fresh_state s mem errno) ops).da.alloc_size →
        (darray_insert w o (run w (fresh_state s mem errno) ops) v pos).ret ≠ NULL →
        (run w (fresh_state s mem errno) ops).da.alloc_size <
          (darray_insert w o (run w (fresh_state s mem errno) ops) v pos).st.da.alloc_size) := by
  have h0 : cap_inv (fresh_state s mem errno) := ⟨Or.inl rfl, Nat.le_refl _⟩
  have hinv := run_cap_inv w ops _ h0 hok
  refine ⟨hinv.1, hinv.2, ?_⟩
  intro hg o v pos hfull hret
  obtain ⟨_, glt, _⟩ := darray_grow_size_of_cap w _ hinv.1 hg
  obtain ⟨hal, _⟩ := darray_insert_alloc_size w o _ v pos hret
  rw [hal, if_pos ⟨by omega, glt⟩]
  exact glt

/-- C24, at a concrete sequence: six `push_back` calls, an `erase`, a `pop_back`, a
`clear` and a `push_front` on a fresh array of element size 4 leave capacity 7 and
size 1. -/
theorem no_reserve_capacity_witness :
    run_ok 64 (fresh_state 4 (fun _ => 0) 0)
      [Op.push_back (int_bytes 1) (alloc_ok 4096), Op.push_back (int_bytes 2) (alloc_ok 4096),
        Op.push_back (int_bytes 3) (alloc_ok 4096), Op.push_back (int_bytes 4) (alloc_ok 4096),
        Op.push_back (int_bytes 5) (alloc_ok 4096), Op.push_back (int_bytes 6) (alloc_ok 8192),
        Op.erase 0, Op.pop_back, Op.clear, Op.push_front (int_bytes 7) (alloc_ok 8192)] = true ∧
    (run 64 (fresh_state 4 (fun _ => 0) 0)
      [Op.push_back (int_bytes 1) (alloc_ok 4096), Op.push_back (int_bytes 2) (alloc_ok 4096),
        Op.push_back (int_bytes 3) (alloc_ok 4096), Op.push_back (int_bytes 4) (alloc_ok 4096),
        Op.push_back (int_bytes 5) (alloc_ok 4096), Op.push_back (int_bytes 6) (alloc_ok 8192),
        Op.erase 0, Op.pop_back, Op.clear,
        Op.push_front (int_bytes 7) (alloc_ok 8192)]).da.alloc_size = 7 ∧
    (run 64 (fresh_state 4 (fun _ => 0) 0)
      [Op.push_back (int_bytes 1) (alloc_ok 4096), Op.push_back (int_bytes 2) (alloc_ok 4096),
        Op.push_back (int_bytes 3) (alloc_ok 4096), Op.push_back (int_bytes 4) (alloc_ok 4096),
        Op.push_back (int_bytes 5) (alloc_ok 4096), Op.push_back (int_bytes 6) (alloc_ok 8192),
        Op.erase 0, Op.pop_back, Op.clear,
        Op.push_front (int_bytes 7) (alloc_ok 8192)]).da.elem_amount ≤
      (run 64 (fresh_state 4 (fun _ => 0) 0)
        [Op.push_back (int_bytes 1) (alloc_ok 4096), Op.push_back (int_bytes 2) (alloc_ok 4096),
          Op.push_back (int_bytes 3) (alloc_ok 4096), Op.push_back (int_bytes 4) (alloc_ok 4096),
          Op.push_back (int_bytes 5) (alloc_ok 4096), Op.push_back (int_bytes 6) (alloc_ok 8192),
          Op.erase 0, Op.pop_back, Op.clear,
          Op.push_front (int_bytes 7) (alloc_ok 8192)]).da.alloc_size :=
  ⟨by decide, by decide,
    (no_reserve_capacity 64
      [Op.push_back (int_bytes 1) (alloc_ok 4096), Op.push_back (int_bytes 2) (alloc_ok 4096),
        Op.push_back (int_bytes 3) (alloc_ok 4096), Op.push_back (int_bytes 4) (alloc_ok 4096),
        Op.push_back (int_bytes 5) (alloc_ok 4096), Op.push_back (int_bytes 6) (alloc_ok 8192),
        Op.erase 0, Op.pop_back, Op.clear, Op.push_front (int_bytes 7) (alloc_ok 8192)]
      4 (fun _ => 0) 0 (by decide)).2.1⟩

end Libds
